import Mathlib

/-!
Verification of the half-edge builder and topology validator of the Gravel
repository (src/src/HalfEdge.cpp, src/include/HalfEdge.h, with the input
record types from src/include/loaders/ObjLoader.h).

Modelling conventions:
- C++ machine integers are modelled as Nat (for the uint32_t sizes and
  vertex indices) and Int (for the int index fields, whose sentinel is -1).
  The static_cast from uint32_t to int is modelled as the Nat-to-Int
  coercion; index values in this program are small, so no wraparound occurs.
- Floating-point attributes (positions, normals, colors, texcoords, face
  normal/center/area) are never computed with by the builder or validator,
  only copied; they are carried as exact rationals.
- std::vector indexing is modelled by getI / setI below; an out-of-range
  read (undefined behaviour in C++) yields -1, an out-of-range write is
  dropped.  All claims about built meshes are stated for well-formed
  sources, where every access is in range.
- std::map<std::pair<int,int>,int> is used by the code only through
  operator[] insertion (later insertion overwrites) and find; it is
  modelled as an association list onto which new entries are prepended,
  with lookup returning the first (i.e. most recent) match.
- vector::resize followed by writes at strictly increasing indices 0,1,2,...
  is modelled by appending elements in order, then padding with the resize
  fill value up to the allocated length.
-/

/-- Carrier for the float attribute data the builder copies verbatim. -/
abbrev Scalar := Rat

abbrev Vec2 := Scalar × Scalar

abbrev Vec3 := Scalar × Scalar × Scalar

abbrev Vec4 := Scalar × Scalar × Scalar × Scalar

/-- glm::vec4(v, 1.0f), the point form used for positions, colors, centers. -/
def vec4OfPoint (v : Vec3) : Vec4 := (v.1, v.2.1, v.2.2, 1)

/-- glm::vec4(v, 0.0f), the direction form used for normals. -/
def vec4OfDir (v : Vec3) : Vec4 := (v.1, v.2.1, v.2.2, 0)

/-- Read l[i] for an int index i; -1 on an out-of-range access (UB in C++). -/
def getI (l : List Int) (i : Int) : Int :=
  if 0 ≤ i then l.getD i.toNat (-1) else -1

/-- Write l[i] = x for an int index i; dropped on an out-of-range access. -/
def setI (l : List Int) (i : Int) (x : Int) : List Int :=
  if 0 ≤ i then l.set i.toNat x else l

/-- Pad a list with d up to length n (the tail a vector resize leaves). -/
def padTo (l : List Int) (n : Nat) (d : Int) : List Int :=
  l ++ List.replicate (n - l.length) d

/-- Lookup in the edge map: first (most recent) entry with the given key. -/
def emFind : List ((Int × Int) × Int) → (Int × Int) → Option Int
  | [], _ => none
  | (k, v) :: rest, key => if k = key then some v else emFind rest key

/-- NGonFace from ObjLoader.h: one polygonal face of the input mesh. -/
structure NGonFace where
  vertexIndices : List Nat
  normalIndices : List Nat
  texCoordIndices : List Nat
  normal : Vec4
  center : Vec4
  area : Scalar
  offset : Nat
  count : Nat
deriving DecidableEq

def defaultFace : NGonFace :=
  { vertexIndices := [], normalIndices := [], texCoordIndices := [],
    normal := (0, 0, 0, 0), center := (0, 0, 0, 0), area := 0,
    offset := 0, count := 0 }

/-- NGonMesh from ObjLoader.h: the Polygon Mesh Source consumed by build. -/
structure NGonMesh where
  positions : List Vec3
  normals : List Vec3
  texCoords : List Vec2
  colors : List Vec3
  faces : List NGonFace
  faceVertexIndices : List Nat
  nbVertices : Nat
  nbFaces : Nat
deriving DecidableEq

/-- HalfEdgeMesh from HalfEdge.h: the half-edge structure build produces. -/
structure HalfEdgeMesh where
  nbVertices : Nat
  nbFaces : Nat
  nbHalfEdges : Nat
  vertexPositions : List Vec4
  vertexColors : List Vec4
  vertexNormals : List Vec4
  vertexTexCoords : List Vec2
  vertexEdges : List Int
  faceEdges : List Int
  faceVertCounts : List Int
  faceOffsets : List Int
  faceNormals : List Vec4
  faceCenters : List Vec4
  faceAreas : List Scalar
  heVertex : List Int
  heFace : List Int
  heNext : List Int
  hePrev : List Int
  heTwin : List Int
  vertexFaceIndices : List Int
deriving DecidableEq

/-- face.vertexIndices[i] cast to int, as the builder reads it. -/
def vtx (face : NGonFace) (i : Nat) : Int :=
  (face.vertexIndices.getD i 0 : Nat)

/-- The i-th face of the source, as ngonMesh.faces[faceId] reads it. -/
def faceAt (src : NGonMesh) (i : Nat) : NGonFace :=
  src.faces.getD i defaultFace

/-- Total half-edge count: the sum of all face vertex counts. -/
def sumCounts (faces : List NGonFace) : Nat :=
  (faces.map (fun f => f.count)).sum

/-- Mutable state of the face-by-face construction loop in build. -/
structure BuildState where
  heVertex : List Int
  heFace : List Int
  heNext : List Int
  hePrev : List Int
  vertexEdges : List Int
  faceEdges : List Int
  edgeMap : List ((Int × Int) × Int)
  currentHE : Int
deriving DecidableEq

/-- State before the face loop: vertexEdges resized to -1, all else empty. -/
def initState (nbVertices : Nat) : BuildState :=
  { heVertex := [], heFace := [], heNext := [], hePrev := [],
    vertexEdges := List.replicate nbVertices (-1),
    faceEdges := [], edgeMap := [], currentHE := 0 }

/-- One iteration of the inner loop of build (HalfEdge.cpp lines 78-99):
creates half-edge currentHE for position i of the face. -/
def heStep (face : NGonFace) (faceId : Nat) (firstHE : Int) (i : Nat)
    (s : BuildState) : BuildState :=
  let heId := s.currentHE
  let v0 := vtx face i
  let v1 := vtx face ((i + 1) % face.count)
  { s with
    heVertex := s.heVertex ++ [v0]
    heFace := s.heFace ++ [(faceId : Int)]
    heNext := s.heNext ++ [if i = face.count - 1 then firstHE else heId + 1]
    hePrev := s.hePrev ++
      [if i = 0 then firstHE + (face.count : Int) - 1 else heId - 1]
    vertexEdges :=
      if getI s.vertexEdges v0 = -1 then setI s.vertexEdges v0 heId
      else s.vertexEdges
    edgeMap := ((v0, v1), heId) :: s.edgeMap
    currentHE := heId + 1 }

/-- The inner loop of build: iterations i, i+1, ..., i+todo-1. -/
def faceLoopGo (face : NGonFace) (faceId : Nat) (firstHE : Int) :
    Nat → Nat → BuildState → BuildState
  | _, 0, s => s
  | i, todo + 1, s =>
      faceLoopGo face faceId firstHE (i + 1) todo (heStep face faceId firstHE i s)

/-- One iteration of the outer face loop of build (lines 74-102). -/
def addFace (s : BuildState) (faceId : Nat) (face : NGonFace) : BuildState :=
  let firstHE := s.currentHE
  let s' := faceLoopGo face faceId firstHE 0 face.count s
  { s' with faceEdges := s'.faceEdges ++ [firstHE] }

/-- The outer face loop of build, with the running faceId counter. -/
def buildFacesGo : List NGonFace → Nat → BuildState → BuildState
  | [], _, s => s
  | face :: rest, faceId, s => buildFacesGo rest (faceId + 1) (addFace s faceId face)

/-- The faces the outer loop visits: faces[0], ..., faces[nbFaces-1]. -/
def facesList (src : NGonMesh) : List NGonFace :=
  (List.range src.nbFaces).map (faceAt src)

/-- State after the whole face-by-face construction loop of build. -/
def builtState (src : NGonMesh) : BuildState :=
  buildFacesGo (facesList src) 0 (initState src.nbVertices)

/-- The twin-resolution loop of build (lines 104-116): returns the heTwin
array together with the boundary-edge counter. -/
def twinResolveGo (em : List ((Int × Int) × Int)) (hv hn : List Int) :
    List Nat → List Int × Nat → List Int × Nat
  | [], acc => acc
  | heId :: rest, (tw, b) =>
      let v0 := getI hv heId
      let v1 := getI hv (getI hn heId)
      match emFind em (v1, v0) with
      | some t => twinResolveGo em hv hn rest (tw ++ [t], b)
      | none => twinResolveGo em hv hn rest (tw ++ [-1], b + 1)

/-- heTwin array and boundary-edge count of the twin-resolution loop. -/
def twinPair (src : NGonMesh) : List Int × Nat :=
  let nbHE := sumCounts src.faces
  let s := builtState src
  twinResolveGo s.edgeMap (padTo s.heVertex nbHE 0) (padTo s.heNext nbHE 0)
    (List.range nbHE) ([], 0)

/-- Number of half-edges the twin-resolution loop left without a twin. -/
def boundaryEdges (src : NGonMesh) : Nat := (twinPair src).2

/-- The mesh build has fully populated just before calling validateTopology
(HalfEdge.cpp lines 7-118). -/
def constructMesh (src : NGonMesh) : HalfEdgeMesh :=
  let nbHE := sumCounts src.faces
  let s := builtState src
  { nbVertices := src.nbVertices
    nbFaces := src.nbFaces
    nbHalfEdges := nbHE
    vertexPositions := (List.range src.nbVertices).map
      (fun i => vec4OfPoint (src.positions.getD i (0, 0, 0)))
    vertexColors := (List.range src.nbVertices).map
      (fun i => vec4OfPoint (src.colors.getD i (0, 0, 0)))
    vertexNormals := (List.range src.nbVertices).map
      (fun i => vec4OfDir (src.normals.getD i (0, 0, 0)))
    vertexTexCoords := (List.range src.nbVertices).map
      (fun i => src.texCoords.getD i (0, 0))
    vertexEdges := s.vertexEdges
    faceEdges := s.faceEdges
    faceVertCounts := (List.range src.nbFaces).map
      (fun i => ((faceAt src i).count : Int))
    faceOffsets := (List.range src.nbFaces).map
      (fun i => ((faceAt src i).offset : Int))
    faceNormals := (List.range src.nbFaces).map (fun i => (faceAt src i).normal)
    faceCenters := (List.range src.nbFaces).map (fun i => (faceAt src i).center)
    faceAreas := (List.range src.nbFaces).map (fun i => (faceAt src i).area)
    heVertex := padTo s.heVertex nbHE 0
    heFace := padTo s.heFace nbHE 0
    heNext := padTo s.heNext nbHE 0
    hePrev := padTo s.hePrev nbHE 0
    heTwin := (twinPair src).1
    vertexFaceIndices := src.faceVertexIndices.map (fun n => (n : Int)) }

/-- Failure kinds of validateTopology, one per distinct throw site. -/
inductive ValError where
  | loopBroken (faceId : Nat)
  | infiniteLoop (faceId : Nat)
  | loopLengthMismatch (faceId : Nat) (count : Nat) (expected : Int)
  | twinAsymmetry (count : Nat)
  | danglingVertex (v : Nat)
  | wrongOriginVertex (v : Nat)
deriving DecidableEq

/-- The do-while loop of validation test 1 (lines 136-150).  The body first
checks prev(next(edge)) = edge, then increments the counter and throws once
it exceeds nbHalfEdges, then exits when the loop closes.  Called with fuel
nbHalfEdges + 1 - count the fuel never reaches 0: the counter check throws
first; the fuel-0 branch repeats that throw and is unreachable. -/
def loopIter (m : HalfEdgeMesh) (faceId : Nat) (start : Int) :
    Int → Nat → Nat → Except ValError Nat
  | _, _, 0 => .error (.infiniteLoop faceId)
  | edge, count, fuel + 1 =>
      let nxt := getI m.heNext edge
      if getI m.hePrev nxt ≠ edge then .error (.loopBroken faceId)
      else
        let count' := count + 1
        if count' > m.nbHalfEdges then .error (.infiniteLoop faceId)
        else if nxt = start then .ok count'
        else loopIter m faceId start nxt count' fuel

/-- Validation test 1 for one face (lines 131-158). -/
def checkFace (m : HalfEdgeMesh) (faceId : Nat) : Except ValError Unit :=
  let start := getI m.faceEdges faceId
  match loopIter m faceId start start 0 (m.nbHalfEdges + 1) with
  | .error e => .error e
  | .ok count =>
      if (count : Int) ≠ getI m.faceVertCounts faceId then
        .error (.loopLengthMismatch faceId count (getI m.faceVertCounts faceId))
      else .ok ()

/-- Validation test 1 over a list of face ids, first failure wins. -/
def checkFacesGo (m : HalfEdgeMesh) : List Nat → Except ValError Unit
  | [] => .ok ()
  | f :: rest =>
      match checkFace m f with
      | .error e => .error e
      | .ok () => checkFacesGo m rest

/-- Validation test 1: next/prev loops close correctly. -/
def checkFaces (m : HalfEdgeMesh) : Except ValError Unit :=
  checkFacesGo m (List.range m.nbFaces)

/-- The violation-counting loop of validation test 2 (lines 161-177). -/
def twinErrorsGo (m : HalfEdgeMesh) : List Nat → Nat → Nat
  | [], acc => acc
  | heId :: rest, acc =>
      let twin := getI m.heTwin heId
      if twin = -1 then twinErrorsGo m rest acc
      else
        let acc1 := if getI m.heTwin twin ≠ (heId : Int) then acc + 1 else acc
        let v0 := getI m.heVertex heId
        let v1 := getI m.heVertex (getI m.heNext heId)
        let tv0 := getI m.heVertex twin
        let tv1 := getI m.heVertex (getI m.heNext twin)
        let acc2 := if v0 ≠ tv1 ∨ v1 ≠ tv0 then acc1 + 1 else acc1
        twinErrorsGo m rest acc2

/-- Total twin-symmetry violation count of validation test 2. -/
def twinErrors (m : HalfEdgeMesh) : Nat :=
  twinErrorsGo m (List.range m.nbHalfEdges) 0

/-- Validation test 2: twin symmetry (lines 160-181). -/
def checkTwins (m : HalfEdgeMesh) : Except ValError Unit :=
  if twinErrors m > 0 then .error (.twinAsymmetry (twinErrors m)) else .ok ()

/-- Validation test 3 over a list of vertex ids (lines 184-196). -/
def checkVertsGo (m : HalfEdgeMesh) : List Nat → Except ValError Unit
  | [] => .ok ()
  | v :: rest =>
      let edge := getI m.vertexEdges v
      if edge = -1 then .error (.danglingVertex v)
      else if getI m.heVertex edge ≠ (v : Int) then .error (.wrongOriginVertex v)
      else checkVertsGo m rest

/-- Validation test 3: every vertex has a valid outgoing edge. -/
def checkVerts (m : HalfEdgeMesh) : Except ValError Unit :=
  checkVertsGo m (List.range m.nbVertices)

/-- HalfEdgeBuilder::validateTopology: the three passes in order, the first
failing pass aborts with its error. -/
def validateTopology (m : HalfEdgeMesh) : Except ValError Unit :=
  match checkFaces m with
  | .error e => .error e
  | .ok () =>
      match checkTwins m with
      | .error e => .error e
      | .ok () => checkVerts m

/-- HalfEdgeBuilder::build: construct the mesh, validate it, and return it
only if validation passed; a validation throw propagates to the caller. -/
def build (src : NGonMesh) : Except ValError HalfEdgeMesh :=
  let m := constructMesh src
  match validateTopology m with
  | .error e => .error e
  | .ok () => .ok m

/-! Spec-side descriptions of what the construction loop writes, one block
per face, used to characterize builtState. -/

/-- Origins written by loop iterations j, ..., j+t-1 of one face. -/
def originsFrom (face : NGonFace) : Nat → Nat → List Int
  | _, 0 => []
  | j, t + 1 => vtx face j :: originsFrom face (j + 1) t

/-- heNext values written by loop iterations j, ..., j+t-1 of one face. -/
def heNextFrom (face : NGonFace) (fh : Int) : Nat → Nat → List Int
  | _, 0 => []
  | j, t + 1 =>
      (if j = face.count - 1 then fh else fh + (j : Int) + 1) ::
        heNextFrom face fh (j + 1) t

/-- hePrev values written by loop iterations j, ..., j+t-1 of one face. -/
def hePrevFrom (face : NGonFace) (fh : Int) : Nat → Nat → List Int
  | _, 0 => []
  | j, t + 1 =>
      (if j = 0 then fh + (face.count : Int) - 1 else fh + (j : Int) - 1) ::
        hePrevFrom face fh (j + 1) t

/-- Edge-map entries registered by loop iterations j, ..., j+t-1. -/
def entriesFrom (face : NGonFace) (fh : Int) : Nat → Nat → List ((Int × Int) × Int)
  | _, 0 => []
  | j, t + 1 =>
      ((vtx face j, vtx face ((j + 1) % face.count)), fh + (j : Int)) ::
        entriesFrom face fh (j + 1) t

/-- The record-one-outgoing-edge-per-vertex update (lines 91-93). -/
def recordOrigin (ve : List Int) (v heId : Int) : List Int :=
  if getI ve v = -1 then setI ve v heId else ve

/-- Fold recordOrigin over a list of origins with ids c, c+1, ... -/
def recordOriginsIdx : List Int → List Int → Int → List Int
  | ve, [], _ => ve
  | ve, v :: rest, c => recordOriginsIdx (recordOrigin ve v c) rest (c + 1)

/-- Concatenation of all faces' origin blocks. -/
def originsBlocks : List NGonFace → List Int
  | [] => []
  | face :: rest => originsFrom face 0 face.count ++ originsBlocks rest

/-- Concatenation of all faces' heFace blocks, face ids from f0. -/
def heFaceBlocks : List NGonFace → Nat → List Int
  | [], _ => []
  | face :: rest, f0 => List.replicate face.count (f0 : Int) ++ heFaceBlocks rest (f0 + 1)

/-- Concatenation of all faces' heNext blocks, half-edge ids from c0. -/
def heNextBlocks : List NGonFace → Int → List Int
  | [], _ => []
  | face :: rest, c0 => heNextFrom face c0 0 face.count ++ heNextBlocks rest (c0 + (face.count : Int))

/-- Concatenation of all faces' hePrev blocks, half-edge ids from c0. -/
def hePrevBlocks : List NGonFace → Int → List Int
  | [], _ => []
  | face :: rest, c0 => hePrevFrom face c0 0 face.count ++ hePrevBlocks rest (c0 + (face.count : Int))

/-- Representative half-edges recorded for the faces, ids from c0. -/
def faceEdgesBlocks : List NGonFace → Int → List Int
  | [], _ => []
  | face :: rest, c0 => c0 :: faceEdgesBlocks rest (c0 + (face.count : Int))

/-- The edge map after all faces: most recent registration first. -/
def edgeMapBlocks : List NGonFace → Int → List ((Int × Int) × Int)
  | [], _ => []
  | face :: rest, c0 =>
      edgeMapBlocks rest (c0 + (face.count : Int)) ++ (entriesFrom face c0 0 face.count).reverse

/-- Well-formedness of one input face: the count field agrees with the
vertex list, the polygon has at least 3 vertices (the loader rejects
smaller faces), and all vertex indices are in range. -/
def faceWF (nv : Nat) (face : NGonFace) : Prop :=
  face.count = face.vertexIndices.length ∧ 3 ≤ face.count ∧
    ∀ v ∈ face.vertexIndices, v < nv

/-- Well-formedness of a Polygon Mesh Source, as the loader guarantees it. -/
def SourceWF (src : NGonMesh) : Prop :=
  src.nbFaces = src.faces.length ∧ ∀ face ∈ src.faces, faceWF src.nbVertices face

instance (nv : Nat) (face : NGonFace) : Decidable (faceWF nv face) := by
  unfold faceWF
  exact inferInstance

instance (src : NGonMesh) : Decidable (SourceWF src) := by
  unfold SourceWF
  exact inferInstance

/-- Index of the first half-edge of face f: sum of earlier vertex counts. -/
def heStartN (fs : List NGonFace) (f : Nat) : Nat :=
  sumCounts (fs.take f)

/-- Origin vertex of half-edge e, as validateTopology and the twin loop
read it: mesh.heVertex[e]. -/
def origin (m : HalfEdgeMesh) (e : Int) : Int := getI m.heVertex e

/-- Destination vertex of half-edge e, taken as the origin of its next:
mesh.heVertex[mesh.heNext[e]]. -/
def dest (m : HalfEdgeMesh) (e : Int) : Int := getI m.heVertex (getI m.heNext e)

/-- Position of the first occurrence of v in a list, if any. -/
def firstIdxFrom (v : Int) : List Int → Option Nat
  | [] => none
  | x :: rest => if x = v then some 0 else (firstIdxFrom v rest).map (fun n => n + 1)

/-- Index of the first half-edge whose origin is v, or -1 if none. -/
def firstOriginIdx (l : List Int) (v : Int) : Int :=
  match firstIdxFrom v l with
  | some n => (n : Int)
  | none => -1

/-- Value the twin-resolution loop writes for half-edge heId. -/
def twinStep (em : List ((Int × Int) × Int)) (hv hn : List Int) (heId : Nat) : Int :=
  match emFind em (getI hv (getI hn (heId : Int)), getI hv (heId : Int)) with
  | some t => t
  | none => -1

/-- Directed edges (origin, destination) of one face, positions j..j+t-1. -/
def dirEdgesFrom (face : NGonFace) : Nat → Nat → List (Int × Int)
  | _, 0 => []
  | j, t + 1 =>
      (vtx face j, vtx face ((j + 1) % face.count)) :: dirEdgesFrom face (j + 1) t

/-- All directed edges of a face list, in half-edge creation order. -/
def dirEdges : List NGonFace → List (Int × Int)
  | [] => []
  | face :: rest => dirEdgesFrom face 0 face.count ++ dirEdges rest

/-- The directed edge the builder registers for position i of face f. -/
def dirEdgeAt (fs : List NGonFace) (f i : Nat) : Int × Int :=
  (vtx (fs.getD f defaultFace) i,
   vtx (fs.getD f defaultFace) ((i + 1) % (fs.getD f defaultFace).count))

/-- One application of next, as the loop-closure pass reads it. -/
def nextIter (m : HalfEdgeMesh) (e : Int) : Int := getI m.heNext e

/-- k-fold application of next starting from start. -/
def chain (m : HalfEdgeMesh) (start : Int) : Nat → Int
  | 0 => start
  | k + 1 => nextIter m (chain m start k)

/-- What it means for the loop-closure pass to accept face f with loop
length n: the next-orbit of the representative half-edge first returns to
it after exactly n steps, within the nbHalfEdges bound, every step passes
the prev(next(e)) = e check, and n equals the declared vertex count. -/
def FaceLoopOkAt (m : HalfEdgeMesh) (f : Nat) (n : Nat) : Prop :=
  1 ≤ n ∧ n ≤ m.nbHalfEdges ∧
  chain m (getI m.faceEdges (f : Int)) n = getI m.faceEdges (f : Int) ∧
  (∀ k, 1 ≤ k → k < n →
    chain m (getI m.faceEdges (f : Int)) k ≠ getI m.faceEdges (f : Int)) ∧
  (∀ k, k < n → getI m.hePrev (chain m (getI m.faceEdges (f : Int)) (k + 1)) =
    chain m (getI m.faceEdges (f : Int)) k) ∧
  (n : Int) = getI m.faceVertCounts (f : Int)

/-- The violation count validation test 2 charges to one half-edge: one
for a broken twin-of-twin pointer, plus one for a non-reversed vertex pair. -/
def twinViolAt (m : HalfEdgeMesh) (heId : Nat) : Nat :=
  let twin := getI m.heTwin (heId : Int)
  if twin = -1 then 0
  else
    (if getI m.heTwin twin ≠ (heId : Int) then 1 else 0) +
    (if getI m.heVertex (heId : Int) ≠ getI m.heVertex (getI m.heNext twin) ∨
        getI m.heVertex (getI m.heNext (heId : Int)) ≠ getI m.heVertex twin
     then 1 else 0)

/-- A face with the given vertex index list, as the OBJ loader builds it
(count = number of indices; geometric attributes irrelevant to topology). -/
def mkFace (vs : List Nat) : NGonFace :=
  { vertexIndices := vs, normalIndices := [], texCoordIndices := [],
    normal := (0, 0, 1, 0), center := (0, 0, 0, 1), area := 0,
    offset := 0, count := vs.length }

/-- A Polygon Mesh Source with nv vertices and the given faces. -/
def mkSrc (nv : Nat) (fss : List (List Nat)) : NGonMesh :=
  { positions := List.replicate nv (0, 0, 0),
    normals := List.replicate nv (0, 0, 1),
    texCoords := List.replicate nv (0, 0),
    colors := List.replicate nv (1, 1, 1),
    faces := fss.map mkFace,
    faceVertexIndices := fss.flatten,
    nbVertices := nv, nbFaces := fss.length }

def emptySrc : NGonMesh := mkSrc 0 []

def triSrc : NGonMesh := mkSrc 3 [[0, 1, 2]]

def quadSrc : NGonMesh := mkSrc 4 [[0, 1, 2, 3]]

def twoTriSrc : NGonMesh := mkSrc 4 [[0, 1, 2], [2, 1, 3]]

def dupEdgeSrc : NGonMesh := mkSrc 2 [[0, 1, 0, 1]]

def selfTwinSrc : NGonMesh := mkSrc 2 [[0, 0, 1]]

/-- The built triangle mesh with heFace, faceOffsets, positions and the
flattened index buffer corrupted; the ten fields validation reads are kept. -/
def corruptTriMesh : HalfEdgeMesh :=
  { constructMesh triSrc with
      heFace := [99, 99, 99]
      faceOffsets := [5]
      vertexPositions := []
      vertexFaceIndices := [8] }

theorem originsFrom_length (face : NGonFace) :
    ∀ t j, (originsFrom face j t).length = t := by
  intro t
  induction t with
  | zero => intro j; rfl
  | succ t ih => intro j; simp [originsFrom, ih]

theorem heNextFrom_length (face : NGonFace) (fh : Int) :
    ∀ t j, (heNextFrom face fh j t).length = t := by
  intro t
  induction t with
  | zero => intro j; rfl
  | succ t ih => intro j; simp [heNextFrom, ih]

theorem hePrevFrom_length (face : NGonFace) (fh : Int) :
    ∀ t j, (hePrevFrom face fh j t).length = t := by
  intro t
  induction t with
  | zero => intro j; rfl
  | succ t ih => intro j; simp [hePrevFrom, ih]

theorem originsBlocks_length (fs : List NGonFace) :
    (originsBlocks fs).length = sumCounts fs := by
  induction fs with
  | nil => rfl
  | cons face rest ih =>
      simp [originsBlocks, sumCounts, originsFrom_length, ih]

theorem recordOriginsIdx_append (a b : List Int) :
    ∀ ve c, recordOriginsIdx ve (a ++ b) c =
      recordOriginsIdx (recordOriginsIdx ve a c) b (c + (a.length : Int)) := by
  induction a with
  | nil => intro ve c; simp [recordOriginsIdx]
  | cons v rest ih =>
      intro ve c
      show recordOriginsIdx (recordOrigin ve v c) (rest ++ b) (c + 1) =
        recordOriginsIdx (recordOriginsIdx (recordOrigin ve v c) rest (c + 1)) b
          (c + ((rest.length + 1 : Nat) : Int))
      rw [ih]
      congr 1
      push_cast
      ring

theorem faceLoopGo_spec (face : NGonFace) (faceId : Nat) (fh : Int) :
    ∀ (todo j : Nat) (s : BuildState), s.currentHE = fh + (j : Int) →
    faceLoopGo face faceId fh j todo s =
      { heVertex := s.heVertex ++ originsFrom face j todo
        heFace := s.heFace ++ List.replicate todo (faceId : Int)
        heNext := s.heNext ++ heNextFrom face fh j todo
        hePrev := s.hePrev ++ hePrevFrom face fh j todo
        vertexEdges := recordOriginsIdx s.vertexEdges (originsFrom face j todo) (fh + (j : Int))
        faceEdges := s.faceEdges
        edgeMap := (entriesFrom face fh j todo).reverse ++ s.edgeMap
        currentHE := fh + (j : Int) + (todo : Int) } := by
  intro todo
  induction todo with
  | zero =>
      intro j s h
      cases s
      simp_all [faceLoopGo, originsFrom, heNextFrom, hePrevFrom, entriesFrom,
        recordOriginsIdx]
  | succ todo ih =>
      intro j s h
      obtain ⟨hv, hf, hn, hp, ve, fe, em, c⟩ := s
      simp only at h
      subst h
      have step : faceLoopGo face faceId fh j (todo + 1)
            ⟨hv, hf, hn, hp, ve, fe, em, fh + (j : Int)⟩ =
          faceLoopGo face faceId fh (j + 1) todo
            (heStep face faceId fh j ⟨hv, hf, hn, hp, ve, fe, em, fh + (j : Int)⟩) := rfl
      rw [step, ih (j + 1) _ (by simp [heStep]; ring)]
      simp only [heStep, originsFrom, heNextFrom, hePrevFrom, entriesFrom,
        recordOriginsIdx, recordOrigin, List.replicate_succ, List.reverse_cons,
        List.append_assoc, List.cons_append, List.singleton_append,
        List.nil_append, Nat.cast_add, Nat.cast_one, BuildState.mk.injEq,
        add_assoc, and_true, true_and]
      ring_nf

theorem sumCounts_nil : sumCounts [] = 0 := rfl

theorem sumCounts_cons (face : NGonFace) (rest : List NGonFace) :
    sumCounts (face :: rest) = face.count + sumCounts rest := by
  simp [sumCounts]

theorem addFace_spec (s : BuildState) (faceId : Nat) (face : NGonFace) :
    addFace s faceId face =
      { heVertex := s.heVertex ++ originsFrom face 0 face.count
        heFace := s.heFace ++ List.replicate face.count (faceId : Int)
        heNext := s.heNext ++ heNextFrom face s.currentHE 0 face.count
        hePrev := s.hePrev ++ hePrevFrom face s.currentHE 0 face.count
        vertexEdges := recordOriginsIdx s.vertexEdges (originsFrom face 0 face.count) s.currentHE
        faceEdges := s.faceEdges ++ [s.currentHE]
        edgeMap := (entriesFrom face s.currentHE 0 face.count).reverse ++ s.edgeMap
        currentHE := s.currentHE + (face.count : Int) } := by
  have h0 : addFace s faceId face =
      { faceLoopGo face faceId s.currentHE 0 face.count s with
        faceEdges := (faceLoopGo face faceId s.currentHE 0 face.count s).faceEdges
          ++ [s.currentHE] } := rfl
  rw [h0, faceLoopGo_spec face faceId s.currentHE face.count 0 s (by simp)]
  simp

theorem buildFacesGo_spec :
    ∀ (fs : List NGonFace) (f0 : Nat) (s : BuildState),
    buildFacesGo fs f0 s =
      { heVertex := s.heVertex ++ originsBlocks fs
        heFace := s.heFace ++ heFaceBlocks fs f0
        heNext := s.heNext ++ heNextBlocks fs s.currentHE
        hePrev := s.hePrev ++ hePrevBlocks fs s.currentHE
        vertexEdges := recordOriginsIdx s.vertexEdges (originsBlocks fs) s.currentHE
        faceEdges := s.faceEdges ++ faceEdgesBlocks fs s.currentHE
        edgeMap := edgeMapBlocks fs s.currentHE ++ s.edgeMap
        currentHE := s.currentHE + (sumCounts fs : Int) }
  | [], f0, s => by
      obtain ⟨hv, hf, hn, hp, ve, fe, em, c⟩ := s
      simp [buildFacesGo, originsBlocks, heFaceBlocks, heNextBlocks, hePrevBlocks,
        faceEdgesBlocks, edgeMapBlocks, recordOriginsIdx, sumCounts]
  | face :: rest, f0, s => by
      have h1 : buildFacesGo (face :: rest) f0 s =
          buildFacesGo rest (f0 + 1) (addFace s f0 face) := rfl
      rw [h1, addFace_spec, buildFacesGo_spec rest (f0 + 1) _]
      simp only [originsBlocks, heFaceBlocks, heNextBlocks, hePrevBlocks,
        faceEdgesBlocks, edgeMapBlocks, sumCounts_cons, List.append_assoc,
        List.cons_append, List.singleton_append, List.nil_append,
        BuildState.mk.injEq, and_true, true_and]
      constructor
      · rw [recordOriginsIdx_append]
        congr 1
        rw [originsFrom_length]
      · simp
        ring

theorem builtState_spec (src : NGonMesh) :
    builtState src =
      { heVertex := originsBlocks (facesList src)
        heFace := heFaceBlocks (facesList src) 0
        heNext := heNextBlocks (facesList src) 0
        hePrev := hePrevBlocks (facesList src) 0
        vertexEdges := recordOriginsIdx (List.replicate src.nbVertices (-1))
          (originsBlocks (facesList src)) 0
        faceEdges := faceEdgesBlocks (facesList src) 0
        edgeMap := edgeMapBlocks (facesList src) 0
        currentHE := (sumCounts (facesList src) : Int) } := by
  unfold builtState initState
  rw [buildFacesGo_spec]
  simp

theorem range_map_getD {α : Type} (l : List α) (d : α) :
    (List.range l.length).map (fun i => l.getD i d) = l := by
  induction l with
  | nil => rfl
  | cons a l ih =>
      rw [List.length_cons, List.range_succ_eq_map, List.map_cons, List.map_map]
      have h2 : ((fun i => (a :: l).getD i d) ∘ Nat.succ) = fun i => l.getD i d := by
        funext i
        simp
      rw [List.getD_cons_zero, h2, ih]

theorem facesList_eq (src : NGonMesh) (h : src.nbFaces = src.faces.length) :
    facesList src = src.faces := by
  unfold facesList faceAt
  rw [h, range_map_getD]

theorem heStartN_zero (fs : List NGonFace) : heStartN fs 0 = 0 := rfl

theorem heStartN_succ_cons (face : NGonFace) (rest : List NGonFace) (f : Nat) :
    heStartN (face :: rest) (f + 1) = face.count + heStartN rest f := by
  simp [heStartN, sumCounts]

theorem heFaceBlocks_length (fs : List NGonFace) :
    ∀ f0, (heFaceBlocks fs f0).length = sumCounts fs := by
  induction fs with
  | nil => intro f0; rfl
  | cons face rest ih => intro f0; simp [heFaceBlocks, sumCounts_cons, ih]

theorem heNextBlocks_length (fs : List NGonFace) :
    ∀ c0, (heNextBlocks fs c0).length = sumCounts fs := by
  induction fs with
  | nil => intro c0; rfl
  | cons face rest ih =>
      intro c0
      simp [heNextBlocks, sumCounts_cons, ih, heNextFrom_length]

theorem hePrevBlocks_length (fs : List NGonFace) :
    ∀ c0, (hePrevBlocks fs c0).length = sumCounts fs := by
  induction fs with
  | nil => intro c0; rfl
  | cons face rest ih =>
      intro c0
      simp [hePrevBlocks, sumCounts_cons, ih, hePrevFrom_length]

theorem faceEdgesBlocks_length (fs : List NGonFace) :
    ∀ c0, (faceEdgesBlocks fs c0).length = fs.length := by
  induction fs with
  | nil => intro c0; rfl
  | cons face rest ih => intro c0; simp [faceEdgesBlocks, ih]

theorem originsFrom_getD (face : NGonFace) :
    ∀ t j k, k < t → (originsFrom face j t).getD k (-1) = vtx face (j + k) := by
  intro t
  induction t with
  | zero => omega
  | succ t ih =>
      intro j k hk
      cases k with
      | zero => simp [originsFrom]
      | succ k =>
          rw [originsFrom, List.getD_cons_succ, ih (j + 1) k (by omega)]
          congr 1
          omega

theorem heNextFrom_getD (face : NGonFace) (fh : Int) :
    ∀ t j k, k < t → (heNextFrom face fh j t).getD k (-1) =
      if j + k = face.count - 1 then fh else fh + ((j + k : Nat) : Int) + 1 := by
  intro t
  induction t with
  | zero => omega
  | succ t ih =>
      intro j k hk
      cases k with
      | zero => simp [heNextFrom]
      | succ k =>
          rw [heNextFrom, List.getD_cons_succ, ih (j + 1) k (by omega)]
          have harg : j + 1 + k = j + (k + 1) := by omega
          rw [harg]

theorem hePrevFrom_getD (face : NGonFace) (fh : Int) :
    ∀ t j k, k < t → (hePrevFrom face fh j t).getD k (-1) =
      if j + k = 0 then fh + (face.count : Int) - 1
      else fh + ((j + k : Nat) : Int) - 1 := by
  intro t
  induction t with
  | zero => omega
  | succ t ih =>
      intro j k hk
      cases k with
      | zero => simp [hePrevFrom]
      | succ k =>
          rw [hePrevFrom, List.getD_cons_succ, ih (j + 1) k (by omega)]
          have harg : j + 1 + k = j + (k + 1) := by omega
          rw [harg]

theorem originsBlocks_getD (fs : List NGonFace) :
    ∀ f i, f < fs.length → i < (fs.getD f defaultFace).count →
      (originsBlocks fs).getD (heStartN fs f + i) (-1) =
        vtx (fs.getD f defaultFace) i := by
  induction fs with
  | nil => intro f i hf _; exact absurd hf (by simp)
  | cons face rest ih =>
      intro f i hf hi
      cases f with
      | zero =>
          have hi' : i < face.count := hi
          rw [originsBlocks, heStartN_zero, Nat.zero_add]
          rw [List.getD_append _ _ _ _ (by rw [originsFrom_length]; exact hi')]
          rw [originsFrom_getD face face.count 0 i hi', Nat.zero_add]
          rfl
      | succ f =>
          have hi' : i < (rest.getD f defaultFace).count := hi
          rw [originsBlocks, heStartN_succ_cons]
          rw [List.getD_append_right _ _ _ _ (by rw [originsFrom_length]; omega)]
          rw [originsFrom_length]
          have harg : face.count + heStartN rest f + i - face.count =
            heStartN rest f + i := by omega
          rw [harg]
          exact ih f i (by simpa using hf) hi'

theorem heFaceBlocks_getD (fs : List NGonFace) :
    ∀ f0 f i, f < fs.length → i < (fs.getD f defaultFace).count →
      (heFaceBlocks fs f0).getD (heStartN fs f + i) (-1) = ((f0 + f : Nat) : Int) := by
  induction fs with
  | nil => intro f0 f i hf _; exact absurd hf (by simp)
  | cons face rest ih =>
      intro f0 f i hf hi
      cases f with
      | zero =>
          have hi' : i < face.count := hi
          rw [heFaceBlocks, heStartN_zero, Nat.zero_add]
          rw [List.getD_append _ _ _ _ (by rw [List.length_replicate]; exact hi')]
          rw [List.getD_eq_getElem?_getD, List.getElem?_replicate]
          simp [hi']
      | succ f =>
          have hi' : i < (rest.getD f defaultFace).count := hi
          rw [heFaceBlocks, heStartN_succ_cons]
          rw [List.getD_append_right _ _ _ _ (by rw [List.length_replicate]; omega)]
          rw [List.length_replicate]
          have harg : face.count + heStartN rest f + i - face.count =
            heStartN rest f + i := by omega
          rw [harg, ih (f0 + 1) f i (by simpa using hf) hi']
          congr 1
          omega

theorem heNextBlocks_getD (fs : List NGonFace) :
    ∀ c0 f i, f < fs.length → i < (fs.getD f defaultFace).count →
      (heNextBlocks fs c0).getD (heStartN fs f + i) (-1) =
        (if i = (fs.getD f defaultFace).count - 1
         then c0 + ((heStartN fs f : Nat) : Int)
         else c0 + ((heStartN fs f : Nat) : Int) + (i : Int) + 1) := by
  induction fs with
  | nil => intro c0 f i hf _; exact absurd hf (by simp)
  | cons face rest ih =>
      intro c0 f i hf hi
      cases f with
      | zero =>
          have hi' : i < face.count := hi
          rw [heNextBlocks, heStartN_zero, Nat.zero_add]
          rw [List.getD_append _ _ _ _ (by rw [heNextFrom_length]; exact hi')]
          rw [heNextFrom_getD face c0 face.count 0 i hi']
          simp
      | succ f =>
          have hi' : i < (rest.getD f defaultFace).count := hi
          rw [heNextBlocks, heStartN_succ_cons]
          rw [List.getD_append_right _ _ _ _ (by rw [heNextFrom_length]; omega)]
          rw [heNextFrom_length]
          have harg : face.count + heStartN rest f + i - face.count =
            heStartN rest f + i := by omega
          rw [harg, ih (c0 + (face.count : Int)) f i (by simpa using hf) hi']
          have hcast : ((face.count + heStartN rest f : Nat) : Int) =
            (face.count : Int) + ((heStartN rest f : Nat) : Int) := by
            push_cast
            ring
          by_cases hi2 : i = (rest.getD f defaultFace).count - 1 <;>
            simp [hi2, hcast, List.getD_cons_succ] <;> ring_nf

theorem hePrevBlocks_getD (fs : List NGonFace) :
    ∀ c0 f i, f < fs.length → i < (fs.getD f defaultFace).count →
      (hePrevBlocks fs c0).getD (heStartN fs f + i) (-1) =
        (if i = 0
         then c0 + ((heStartN fs f : Nat) : Int) + ((fs.getD f defaultFace).count : Int) - 1
         else c0 + ((heStartN fs f : Nat) : Int) + (i : Int) - 1) := by
  induction fs with
  | nil => intro c0 f i hf _; exact absurd hf (by simp)
  | cons face rest ih =>
      intro c0 f i hf hi
      cases f with
      | zero =>
          have hi' : i < face.count := hi
          rw [hePrevBlocks, heStartN_zero, Nat.zero_add]
          rw [List.getD_append _ _ _ _ (by rw [hePrevFrom_length]; exact hi')]
          rw [hePrevFrom_getD face c0 face.count 0 i hi']
          simp
      | succ f =>
          have hi' : i < (rest.getD f defaultFace).count := hi
          rw [hePrevBlocks, heStartN_succ_cons]
          rw [List.getD_append_right _ _ _ _ (by rw [hePrevFrom_length]; omega)]
          rw [hePrevFrom_length]
          have harg : face.count + heStartN rest f + i - face.count =
            heStartN rest f + i := by omega
          rw [harg, ih (c0 + (face.count : Int)) f i (by simpa using hf) hi']
          have hcast : ((face.count + heStartN rest f : Nat) : Int) =
            (face.count : Int) + ((heStartN rest f : Nat) : Int) := by
            push_cast
            ring
          by_cases hi2 : i = 0 <;>
            simp [hi2, hcast, List.getD_cons_succ] <;> ring_nf

theorem faceEdgesBlocks_getD (fs : List NGonFace) :
    ∀ c0 f, f < fs.length →
      (faceEdgesBlocks fs c0).getD f (-1) = c0 + ((heStartN fs f : Nat) : Int) := by
  induction fs with
  | nil => intro c0 f hf; exact absurd hf (by simp)
  | cons face rest ih =>
      intro c0 f hf
      cases f with
      | zero => simp [faceEdgesBlocks, heStartN_zero]
      | succ f =>
          rw [faceEdgesBlocks, List.getD_cons_succ, heStartN_succ_cons]
          rw [ih (c0 + (face.count : Int)) f (by simpa using hf)]
          push_cast
          ring

theorem he_decompose (fs : List NGonFace) :
    ∀ e, e < sumCounts fs → ∃ f i, f < fs.length ∧
      i < (fs.getD f defaultFace).count ∧ e = heStartN fs f + i := by
  induction fs with
  | nil => intro e he; rw [sumCounts_nil] at he; omega
  | cons face rest ih =>
      intro e he
      rw [sumCounts_cons] at he
      by_cases h : e < face.count
      · exact ⟨0, e, by simp, h, by rw [heStartN_zero]; omega⟩
      · obtain ⟨f, i, hf, hi, he2⟩ := ih (e - face.count) (by omega)
        refine ⟨f + 1, i, by simpa using hf, hi, ?_⟩
        rw [heStartN_succ_cons]
        omega

theorem padTo_eq (l : List Int) (n : Nat) (d : Int) (h : l.length = n) :
    padTo l n d = l := by
  simp [padTo, h]

theorem getI_natCast (l : List Int) (n : Nat) : getI l (n : Int) = l.getD n (-1) := by
  simp [getI]

theorem mapRange_getD {α : Type} (g : Nat → α) (n k : Nat) (d : α) (h : k < n) :
    ((List.range n).map g).getD k d = g k := by
  rw [List.getD_eq_getElem?_getD, List.getElem?_map, List.getElem?_range h]
  rfl

theorem constructMesh_heVertex (src : NGonMesh) (h : SourceWF src) :
    (constructMesh src).heVertex = originsBlocks src.faces := by
  have h1 : (constructMesh src).heVertex =
      padTo (builtState src).heVertex (sumCounts src.faces) 0 := rfl
  rw [h1, builtState_spec, facesList_eq src h.1]
  exact padTo_eq _ _ _ (originsBlocks_length src.faces)

theorem constructMesh_heFace (src : NGonMesh) (h : SourceWF src) :
    (constructMesh src).heFace = heFaceBlocks src.faces 0 := by
  have h1 : (constructMesh src).heFace =
      padTo (builtState src).heFace (sumCounts src.faces) 0 := rfl
  rw [h1, builtState_spec, facesList_eq src h.1]
  exact padTo_eq _ _ _ (heFaceBlocks_length src.faces 0)

theorem constructMesh_heNext (src : NGonMesh) (h : SourceWF src) :
    (constructMesh src).heNext = heNextBlocks src.faces 0 := by
  have h1 : (constructMesh src).heNext =
      padTo (builtState src).heNext (sumCounts src.faces) 0 := rfl
  rw [h1, builtState_spec, facesList_eq src h.1]
  exact padTo_eq _ _ _ (heNextBlocks_length src.faces 0)

theorem constructMesh_hePrev (src : NGonMesh) (h : SourceWF src) :
    (constructMesh src).hePrev = hePrevBlocks src.faces 0 := by
  have h1 : (constructMesh src).hePrev =
      padTo (builtState src).hePrev (sumCounts src.faces) 0 := rfl
  rw [h1, builtState_spec, facesList_eq src h.1]
  exact padTo_eq _ _ _ (hePrevBlocks_length src.faces 0)

theorem constructMesh_faceEdges (src : NGonMesh) (h : SourceWF src) :
    (constructMesh src).faceEdges = faceEdgesBlocks src.faces 0 := by
  have h1 : (constructMesh src).faceEdges = (builtState src).faceEdges := rfl
  rw [h1, builtState_spec, facesList_eq src h.1]

theorem constructMesh_vertexEdges (src : NGonMesh) (h : SourceWF src) :
    (constructMesh src).vertexEdges =
      recordOriginsIdx (List.replicate src.nbVertices (-1))
        (originsBlocks src.faces) 0 := by
  have h1 : (constructMesh src).vertexEdges = (builtState src).vertexEdges := rfl
  rw [h1, builtState_spec, facesList_eq src h.1]

theorem builtState_edgeMap (src : NGonMesh) (h : SourceWF src) :
    (builtState src).edgeMap = edgeMapBlocks src.faces 0 := by
  rw [builtState_spec, facesList_eq src h.1]

theorem cm_heVertex_at (src : NGonMesh) (h : SourceWF src) (f i : Nat)
    (hf : f < src.nbFaces) (hi : i < (faceAt src f).count) :
    getI (constructMesh src).heVertex ((heStartN src.faces f + i : Nat) : Int) =
      vtx (faceAt src f) i := by
  rw [getI_natCast, constructMesh_heVertex src h]
  exact originsBlocks_getD src.faces f i (h.1 ▸ hf) hi

theorem cm_heFace_at (src : NGonMesh) (h : SourceWF src) (f i : Nat)
    (hf : f < src.nbFaces) (hi : i < (faceAt src f).count) :
    getI (constructMesh src).heFace ((heStartN src.faces f + i : Nat) : Int) =
      (f : Int) := by
  rw [getI_natCast, constructMesh_heFace src h]
  rw [heFaceBlocks_getD src.faces 0 f i (h.1 ▸ hf) hi]
  simp

theorem cm_heNext_at (src : NGonMesh) (h : SourceWF src) (f i : Nat)
    (hf : f < src.nbFaces) (hi : i < (faceAt src f).count) :
    getI (constructMesh src).heNext ((heStartN src.faces f + i : Nat) : Int) =
      ((heStartN src.faces f + (i + 1) % (faceAt src f).count : Nat) : Int) := by
  simp only [faceAt] at hi ⊢
  rw [getI_natCast, constructMesh_heNext src h]
  rw [heNextBlocks_getD src.faces 0 f i (h.1 ▸ hf) hi]
  rcases Nat.lt_or_ge (i + 1) (src.faces.getD f defaultFace).count with hlt | hge
  · rw [if_neg (by omega), Nat.mod_eq_of_lt hlt]
    push_cast
    ring
  · rw [if_pos (by omega)]
    have hmod : (i + 1) % (src.faces.getD f defaultFace).count = 0 := by
      have he : i + 1 = (src.faces.getD f defaultFace).count := by omega
      simp [he]
    rw [hmod]
    push_cast
    ring

theorem cm_hePrev_at (src : NGonMesh) (h : SourceWF src) (f i : Nat)
    (hf : f < src.nbFaces) (hi : i < (faceAt src f).count) :
    getI (constructMesh src).hePrev ((heStartN src.faces f + i : Nat) : Int) =
      ((heStartN src.faces f + (i + (faceAt src f).count - 1) % (faceAt src f).count
        : Nat) : Int) := by
  simp only [faceAt] at hi ⊢
  rw [getI_natCast, constructMesh_hePrev src h]
  rw [hePrevBlocks_getD src.faces 0 f i (h.1 ▸ hf) hi]
  by_cases h2 : i = 0
  · rw [if_pos h2]
    have hmod : (i + (src.faces.getD f defaultFace).count - 1) %
        (src.faces.getD f defaultFace).count =
        (src.faces.getD f defaultFace).count - 1 := by
      subst h2
      have h0 : 0 + (src.faces.getD f defaultFace).count - 1 =
          (src.faces.getD f defaultFace).count - 1 := by omega
      rw [h0]
      exact Nat.mod_eq_of_lt (by omega)
    rw [hmod]
    omega
  · rw [if_neg h2]
    have hmod : (i + (src.faces.getD f defaultFace).count - 1) %
        (src.faces.getD f defaultFace).count = i - 1 := by
      have heq : i + (src.faces.getD f defaultFace).count - 1 =
          (i - 1) + (src.faces.getD f defaultFace).count := by omega
      rw [heq, Nat.add_mod_right]
      exact Nat.mod_eq_of_lt (by omega)
    rw [hmod]
    omega

theorem cm_faceEdges_at (src : NGonMesh) (h : SourceWF src) (f : Nat)
    (hf : f < src.nbFaces) :
    getI (constructMesh src).faceEdges (f : Int) =
      ((heStartN src.faces f : Nat) : Int) := by
  rw [getI_natCast, constructMesh_faceEdges src h]
  rw [faceEdgesBlocks_getD src.faces 0 f (h.1 ▸ hf)]
  ring

theorem cm_faceVertCounts_at (src : NGonMesh) (f : Nat) (hf : f < src.nbFaces) :
    getI (constructMesh src).faceVertCounts (f : Int) =
      ((faceAt src f).count : Int) := by
  have h1 : (constructMesh src).faceVertCounts =
      (List.range src.nbFaces).map (fun i => ((faceAt src i).count : Int)) := rfl
  rw [h1, getI_natCast, mapRange_getD _ _ _ _ hf]

theorem length_setI (l : List Int) (i x : Int) : (setI l i x).length = l.length := by
  unfold setI
  split <;> simp

theorem getI_setI_self (l : List Int) (v x : Int) (h0 : 0 ≤ v)
    (h1 : v.toNat < l.length) : getI (setI l v x) v = x := by
  unfold getI setI
  rw [if_pos h0, if_pos h0, List.getD_eq_getElem?_getD,
    List.getElem?_set_self (by simpa using h1), Option.getD_some]

theorem getI_setI_ne (l : List Int) (v w x : Int) (hne : v ≠ w) :
    getI (setI l w x) v = getI l v := by
  by_cases hv : 0 ≤ v
  · by_cases hw : 0 ≤ w
    · have hnat : w.toNat ≠ v.toNat := by omega
      simp only [getI, setI, if_pos hv, if_pos hw]
      rw [List.getD_eq_getElem?_getD, List.getD_eq_getElem?_getD,
        List.getElem?_set_ne hnat]
    · simp only [getI, setI, if_neg hw, if_pos hv]
  · simp only [getI, setI, if_neg hv]

theorem getI_replicate (n : Nat) (v : Int) (h0 : 0 ≤ v) (h1 : v.toNat < n) :
    getI (List.replicate n (-1)) v = -1 := by
  unfold getI
  rw [if_pos h0, List.getD_eq_getElem?_getD, List.getElem?_replicate]
  simp [h1]

theorem recordOriginsIdx_getI :
    ∀ (l : List Int) (ve : List Int) (c v : Int), 0 ≤ c → 0 ≤ v →
      v.toNat < ve.length →
      getI (recordOriginsIdx ve l c) v =
        (if getI ve v = -1 then
          (match firstIdxFrom v l with
           | some n => c + (n : Int)
           | none => -1)
         else getI ve v) := by
  intro l
  induction l with
  | nil =>
      intro ve c v hc hv hlen
      simp only [recordOriginsIdx, firstIdxFrom]
      by_cases hvv : getI ve v = -1 <;> simp [hvv]
  | cons w rest ih =>
      intro ve c v hc hv hlen
      have hstep : recordOriginsIdx ve (w :: rest) c =
          recordOriginsIdx (recordOrigin ve w c) rest (c + 1) := rfl
      rw [hstep]
      by_cases hset : getI ve w = -1
      · have hveq : recordOrigin ve w c = setI ve w c := by
          simp [recordOrigin, hset]
        by_cases hwv : w = v
        · subst hwv
          rw [hveq, ih (setI ve w c) (c + 1) w (by omega) hv
            (by rw [length_setI]; exact hlen)]
          rw [getI_setI_self ve w c hv hlen]
          rw [if_neg (by omega : ¬ (c = -1)), if_pos hset]
          simp [firstIdxFrom]
        · rw [hveq, ih (setI ve w c) (c + 1) v (by omega) hv
            (by rw [length_setI]; exact hlen)]
          rw [getI_setI_ne ve v w c (Ne.symm hwv)]
          by_cases hvv : getI ve v = -1
          · rw [if_pos hvv, if_pos hvv]
            simp only [firstIdxFrom, if_neg hwv]
            cases h3 : firstIdxFrom v rest with
            | none => simp
            | some n => simp; ring
          · rw [if_neg hvv, if_neg hvv]
      · have hveq : recordOrigin ve w c = ve := by
          simp [recordOrigin, hset]
        rw [hveq, ih ve (c + 1) v (by omega) hv hlen]
        by_cases hvv : getI ve v = -1
        · have hwv : ¬ (w = v) := by
            intro he
            rw [he] at hset
            exact hset hvv
          rw [if_pos hvv, if_pos hvv]
          simp only [firstIdxFrom, if_neg hwv]
          cases h3 : firstIdxFrom v rest with
          | none => simp
          | some n => simp; ring
        · rw [if_neg hvv, if_neg hvv]

theorem cm_vertexEdges_at (src : NGonMesh) (h : SourceWF src) (v : Nat)
    (hv : v < src.nbVertices) :
    getI (constructMesh src).vertexEdges (v : Int) =
      firstOriginIdx (constructMesh src).heVertex (v : Int) := by
  rw [constructMesh_vertexEdges src h, constructMesh_heVertex src h]
  rw [recordOriginsIdx_getI (originsBlocks src.faces)
    (List.replicate src.nbVertices (-1)) 0 (v : Int) le_rfl (by omega)
    (by simpa using hv)]
  rw [getI_replicate src.nbVertices (v : Int) (by omega) (by simpa using hv)]
  rw [if_pos rfl]
  unfold firstOriginIdx
  cases firstIdxFrom (v : Int) (originsBlocks src.faces) <;> simp

theorem twinResolveGo_spec (em : List ((Int × Int) × Int)) (hv hn : List Int) :
    ∀ (l : List Nat) (tw : List Int) (b : Nat),
      twinResolveGo em hv hn l (tw, b) =
        (tw ++ l.map (twinStep em hv hn),
         b + l.countP (fun (heId : Nat) =>
           (emFind em (getI hv (getI hn (heId : Int)), getI hv (heId : Int))).isNone)) := by
  intro l
  induction l with
  | nil =>
      intro tw b
      simp [twinResolveGo]
  | cons heId rest ih =>
      intro tw b
      cases hfind : emFind em (getI hv (getI hn (heId : Int)), getI hv (heId : Int)) with
      | some t =>
          have hstep : twinResolveGo em hv hn (heId :: rest) (tw, b) =
              twinResolveGo em hv hn rest (tw ++ [t], b) := by
            simp [twinResolveGo, hfind]
          rw [hstep, ih]
          simp [twinStep, hfind, List.countP_cons]
      | none =>
          have hstep : twinResolveGo em hv hn (heId :: rest) (tw, b) =
              twinResolveGo em hv hn rest (tw ++ [-1], b + 1) := by
            simp [twinResolveGo, hfind]
          rw [hstep, ih]
          simp [twinStep, hfind, List.countP_cons]
          omega

theorem cm_heTwin_at (src : NGonMesh) (e : Nat) (he : e < sumCounts src.faces) :
    getI (constructMesh src).heTwin (e : Int) =
      (match emFind (builtState src).edgeMap
         (dest (constructMesh src) (e : Int), origin (constructMesh src) (e : Int)) with
       | some t => t
       | none => -1) := by
  have h1 : (constructMesh src).heTwin =
      (twinResolveGo (builtState src).edgeMap
        (padTo (builtState src).heVertex (sumCounts src.faces) 0)
        (padTo (builtState src).heNext (sumCounts src.faces) 0)
        (List.range (sumCounts src.faces)) ([], 0)).1 := rfl
  rw [h1, twinResolveGo_spec]
  show getI ((List.range (sumCounts src.faces)).map _) (e : Int) = _
  rw [getI_natCast, mapRange_getD _ _ _ _ he]
  rfl

theorem boundaryEdges_spec (src : NGonMesh) :
    boundaryEdges src = (List.range (sumCounts src.faces)).countP
      (fun (e : Nat) => (emFind (builtState src).edgeMap
        (dest (constructMesh src) (e : Int),
         origin (constructMesh src) (e : Int))).isNone) := by
  have h1 : boundaryEdges src =
      (twinResolveGo (builtState src).edgeMap
        (padTo (builtState src).heVertex (sumCounts src.faces) 0)
        (padTo (builtState src).heNext (sumCounts src.faces) 0)
        (List.range (sumCounts src.faces)) ([], 0)).2 := rfl
  rw [h1, twinResolveGo_spec, Nat.zero_add]
  rfl

theorem entriesFrom_key_map (face : NGonFace) (fh : Int) :
    ∀ t j, (entriesFrom face fh j t).map Prod.fst = dirEdgesFrom face j t := by
  intro t
  induction t with
  | zero => intro j; rfl
  | succ t ih => intro j; simp [entriesFrom, dirEdgesFrom, ih]

theorem edgeMapBlocks_keys_perm (fs : List NGonFace) :
    ∀ c0, ((edgeMapBlocks fs c0).map Prod.fst).Perm (dirEdges fs) := by
  induction fs with
  | nil => intro c0; simp [edgeMapBlocks, dirEdges]
  | cons face rest ih =>
      intro c0
      rw [edgeMapBlocks, dirEdges, List.map_append, List.map_reverse,
        entriesFrom_key_map]
      refine List.Perm.trans
        (List.Perm.append (ih _) (List.reverse_perm _)) ?_
      exact List.perm_append_comm

theorem emFind_eq_none (E : List ((Int × Int) × Int)) (k : Int × Int)
    (h : k ∉ E.map Prod.fst) : emFind E k = none := by
  induction E with
  | nil => rfl
  | cons p rest ih =>
      obtain ⟨kp, vp⟩ := p
      simp only [List.map_cons, List.mem_cons] at h
      push_neg at h
      rw [emFind, if_neg (Ne.symm h.1)]
      exact ih h.2

theorem emFind_eq_some (E : List ((Int × Int) × Int)) (k : Int × Int) (v : Int)
    (hnd : (E.map Prod.fst).Nodup) (hm : (k, v) ∈ E) : emFind E k = some v := by
  induction E with
  | nil => simp at hm
  | cons p rest ih =>
      obtain ⟨kp, vp⟩ := p
      rw [List.map_cons, List.nodup_cons] at hnd
      rcases List.mem_cons.mp hm with heq | hrest
      · obtain ⟨h1, h2⟩ := Prod.mk.injEq .. ▸ heq
        rw [emFind, if_pos (by rw [h1])]
        rw [h2]
      · have hkne : ¬ (kp = k) := by
          intro he
          apply hnd.1
          subst he
          exact List.mem_map.mpr ⟨(kp, v), hrest, rfl⟩
        rw [emFind, if_neg hkne]
        exact ih hnd.2 hrest

theorem emFind_mem (E : List ((Int × Int) × Int)) (k : Int × Int) (v : Int)
    (h : emFind E k = some v) : (k, v) ∈ E := by
  induction E with
  | nil => simp [emFind] at h
  | cons p rest ih =>
      obtain ⟨kp, vp⟩ := p
      rw [emFind] at h
      by_cases hk : kp = k
      · rw [if_pos hk] at h
        subst hk
        obtain rfl : vp = v := by injection h
        exact List.mem_cons_self _ _
      · rw [if_neg hk] at h
        exact List.mem_cons_of_mem _ (ih h)

theorem entriesFrom_mem (face : NGonFace) (fh : Int) :
    ∀ t j k, k < t →
      ((vtx face (j + k), vtx face ((j + k + 1) % face.count)),
        fh + ((j + k : Nat) : Int)) ∈ entriesFrom face fh j t := by
  intro t
  induction t with
  | zero => omega
  | succ t ih =>
      intro j k hk
      cases k with
      | zero => simp [entriesFrom]
      | succ k =>
          have h2 := ih (j + 1) k (by omega)
          have harg : j + 1 + k = j + (k + 1) := by omega
          rw [harg] at h2
          exact List.mem_cons_of_mem _ h2

theorem entriesFrom_mem_inv (face : NGonFace) (fh : Int) :
    ∀ t j p, p ∈ entriesFrom face fh j t →
      ∃ k, k < t ∧ p = ((vtx face (j + k), vtx face ((j + k + 1) % face.count)),
        fh + ((j + k : Nat) : Int)) := by
  intro t
  induction t with
  | zero => intro j p hp; simp [entriesFrom] at hp
  | succ t ih =>
      intro j p hp
      rcases List.mem_cons.mp hp with heq | htail
      · exact ⟨0, by omega, by simpa using heq⟩
      · obtain ⟨k, hk, hpe⟩ := ih (j + 1) p htail
        refine ⟨k + 1, by omega, ?_⟩
        have harg : j + 1 + k = j + (k + 1) := by omega
        rw [harg] at hpe
        exact hpe

theorem edgeMapBlocks_mem (fs : List NGonFace) :
    ∀ c0 f i, f < fs.length → i < (fs.getD f defaultFace).count →
      (dirEdgeAt fs f i, c0 + ((heStartN fs f + i : Nat) : Int)) ∈
        edgeMapBlocks fs c0 := by
  induction fs with
  | nil => intro c0 f i hf _; exact absurd hf (by simp)
  | cons face rest ih =>
      intro c0 f i hf hi
      rw [edgeMapBlocks]
      cases f with
      | zero =>
          apply List.mem_append_right
          apply List.mem_reverse.mpr
          have h2 := entriesFrom_mem face c0 face.count 0 i hi
          simp only [Nat.zero_add] at h2
          simpa [dirEdgeAt, heStartN_zero] using h2
      | succ f =>
          apply List.mem_append_left
          have h2 := ih (c0 + (face.count : Int)) f i (by simpa using hf) hi
          have harg : c0 + (face.count : Int) +
              ((heStartN rest f + i : Nat) : Int) =
              c0 + ((heStartN (face :: rest) (f + 1) + i : Nat) : Int) := by
            rw [heStartN_succ_cons]
            push_cast
            ring
          rw [harg] at h2
          have hde : dirEdgeAt rest f i = dirEdgeAt (face :: rest) (f + 1) i := rfl
          rw [hde] at h2
          exact h2

theorem edgeMapBlocks_mem_inv (fs : List NGonFace) :
    ∀ c0 p, p ∈ edgeMapBlocks fs c0 →
      ∃ f i, f < fs.length ∧ i < (fs.getD f defaultFace).count ∧
        p = (dirEdgeAt fs f i, c0 + ((heStartN fs f + i : Nat) : Int)) := by
  induction fs with
  | nil => intro c0 p hp; simp [edgeMapBlocks] at hp
  | cons face rest ih =>
      intro c0 p hp
      rw [edgeMapBlocks] at hp
      rcases List.mem_append.mp hp with hleft | hright
      · obtain ⟨f, i, hf, hi, hpe⟩ := ih (c0 + (face.count : Int)) p hleft
        refine ⟨f + 1, i, by simpa using hf, hi, ?_⟩
        rw [hpe]
        have harg : c0 + (face.count : Int) +
            ((heStartN rest f + i : Nat) : Int) =
            c0 + ((heStartN (face :: rest) (f + 1) + i : Nat) : Int) := by
          rw [heStartN_succ_cons]
          push_cast
          ring
        rw [harg]
        rfl
      · obtain ⟨k, hk, hpe⟩ := entriesFrom_mem_inv face c0 face.count 0 p
          (List.mem_reverse.mp hright)
        refine ⟨0, k, by simp, hk, ?_⟩
        rw [hpe]
        simp [dirEdgeAt, heStartN_zero]

theorem heStartN_add_lt (fs : List NGonFace) :
    ∀ f i, f < fs.length → i < (fs.getD f defaultFace).count →
      heStartN fs f + i < sumCounts fs := by
  induction fs with
  | nil => intro f i hf _; exact absurd hf (by simp)
  | cons face rest ih =>
      intro f i hf hi
      rw [sumCounts_cons]
      cases f with
      | zero =>
          rw [heStartN_zero]
          have : i < face.count := hi
          omega
      | succ f =>
          rw [heStartN_succ_cons]
          have := ih f i (by simpa using hf) hi
          omega

theorem cm_origin_at (src : NGonMesh) (h : SourceWF src) (f i : Nat)
    (hf : f < src.nbFaces) (hi : i < (faceAt src f).count) :
    origin (constructMesh src) ((heStartN src.faces f + i : Nat) : Int) =
      vtx (faceAt src f) i :=
  cm_heVertex_at src h f i hf hi

theorem cm_dest_at (src : NGonMesh) (h : SourceWF src) (f i : Nat)
    (hf : f < src.nbFaces) (hi : i < (faceAt src f).count) :
    dest (constructMesh src) ((heStartN src.faces f + i : Nat) : Int) =
      vtx (faceAt src f) ((i + 1) % (faceAt src f).count) := by
  unfold dest
  rw [cm_heNext_at src h f i hf hi]
  exact cm_heVertex_at src h f ((i + 1) % (faceAt src f).count) hf
    (Nat.mod_lt _ (by omega))

theorem cm_heTwin_at_some (src : NGonMesh) (e : Nat) (he : e < sumCounts src.faces)
    (t : Int) (hfind : emFind (builtState src).edgeMap
      (dest (constructMesh src) (e : Int), origin (constructMesh src) (e : Int)) =
      some t) :
    getI (constructMesh src).heTwin (e : Int) = t := by
  rw [cm_heTwin_at src e he, hfind]

theorem cm_heTwin_at_none (src : NGonMesh) (e : Nat) (he : e < sumCounts src.faces)
    (hfind : emFind (builtState src).edgeMap
      (dest (constructMesh src) (e : Int), origin (constructMesh src) (e : Int)) =
      none) :
    getI (constructMesh src).heTwin (e : Int) = -1 := by
  rw [cm_heTwin_at src e he, hfind]

theorem twin_symm_helper (src : NGonMesh) (h : SourceWF src)
    (hnd : (dirEdges src.faces).Nodup) (e : Nat) (he : e < sumCounts src.faces)
    (ht : getI (constructMesh src).heTwin (e : Int) ≠ -1) :
    ∃ t : Nat, t < sumCounts src.faces ∧
      getI (constructMesh src).heTwin (e : Int) = (t : Int) ∧
      getI (constructMesh src).heTwin (t : Int) = (e : Int) ∧
      origin (constructMesh src) (t : Int) = dest (constructMesh src) (e : Int) ∧
      dest (constructMesh src) (t : Int) = origin (constructMesh src) (e : Int) := by
  obtain ⟨f, i, hf, hi, hei⟩ := he_decompose src.faces e he
  have hf' : f < src.nbFaces := h.1 ▸ hf
  have hknd : ((edgeMapBlocks src.faces 0).map Prod.fst).Nodup :=
    ((edgeMapBlocks_keys_perm src.faces 0).nodup_iff).mpr hnd
  cases hfind : emFind (edgeMapBlocks src.faces 0)
      (dest (constructMesh src) (e : Int), origin (constructMesh src) (e : Int)) with
  | none =>
      have h0 := cm_heTwin_at_none src e he
        (by rw [builtState_edgeMap src h]; exact hfind)
      exact absurd h0 ht
  | some t' =>
      have htw : getI (constructMesh src).heTwin (e : Int) = t' :=
        cm_heTwin_at_some src e he t' (by rw [builtState_edgeMap src h]; exact hfind)
      obtain ⟨g, j, hg, hj, hpe⟩ :=
        edgeMapBlocks_mem_inv src.faces 0 _ (emFind_mem _ _ _ hfind)
      have hg' : g < src.nbFaces := h.1 ▸ hg
      have hkey : (dest (constructMesh src) (e : Int),
          origin (constructMesh src) (e : Int)) = dirEdgeAt src.faces g j := by
        have := congrArg Prod.fst hpe
        simpa using this
      have hval : t' = ((heStartN src.faces g + j : Nat) : Int) := by
        have := congrArg Prod.snd hpe
        simpa using this
      have htlt : heStartN src.faces g + j < sumCounts src.faces :=
        heStartN_add_lt src.faces g j hg hj
      have hot : origin (constructMesh src)
          ((heStartN src.faces g + j : Nat) : Int) = vtx (faceAt src g) j :=
        cm_origin_at src h g j hg' hj
      have hdt : dest (constructMesh src)
          ((heStartN src.faces g + j : Nat) : Int) =
          vtx (faceAt src g) ((j + 1) % (faceAt src g).count) :=
        cm_dest_at src h g j hg' hj
      have hde : dest (constructMesh src) (e : Int) = vtx (faceAt src g) j :=
        congrArg Prod.fst hkey
      have hoe : origin (constructMesh src) (e : Int) =
          vtx (faceAt src g) ((j + 1) % (faceAt src g).count) :=
        congrArg Prod.snd hkey
      have hoe2 : origin (constructMesh src) (e : Int) = vtx (faceAt src f) i := by
        rw [hei]
        exact cm_origin_at src h f i hf' hi
      have hde2 : dest (constructMesh src) (e : Int) =
          vtx (faceAt src f) ((i + 1) % (faceAt src f).count) := by
        rw [hei]
        exact cm_dest_at src h f i hf' hi
      have hkey2 : (dest (constructMesh src)
          ((heStartN src.faces g + j : Nat) : Int),
          origin (constructMesh src) ((heStartN src.faces g + j : Nat) : Int)) =
          dirEdgeAt src.faces f i := by
        rw [hdt, hot, ← hoe, ← hde, hoe2, hde2]
        rfl
      have hmem2 : (dirEdgeAt src.faces f i,
          (0 : Int) + ((heStartN src.faces f + i : Nat) : Int)) ∈
          edgeMapBlocks src.faces 0 :=
        edgeMapBlocks_mem src.faces 0 f i hf hi
      have hfind2 : emFind (edgeMapBlocks src.faces 0) (dirEdgeAt src.faces f i) =
          some ((0 : Int) + ((heStartN src.faces f + i : Nat) : Int)) :=
        emFind_eq_some _ _ _ hknd hmem2
      have htw2 : getI (constructMesh src).heTwin
          ((heStartN src.faces g + j : Nat) : Int) =
          (0 : Int) + ((heStartN src.faces f + i : Nat) : Int) := by
        apply cm_heTwin_at_some src _ htlt
        rw [builtState_edgeMap src h, hkey2]
        exact hfind2
      refine ⟨heStartN src.faces g + j, htlt, ?_, ?_, ?_, ?_⟩
      · rw [htw, hval]
      · rw [htw2, ← hei]
        ring
      · rw [hot, hde]
      · rw [hdt, hoe]

theorem loopIter_ok_props (m : HalfEdgeMesh) (f : Nat) (start : Int) :
    ∀ (fuel j c : Nat), fuel = m.nbHalfEdges + 1 - j → j ≤ m.nbHalfEdges →
      loopIter m f start (chain m start j) j fuel = .ok c →
      j < c ∧ c ≤ m.nbHalfEdges ∧ chain m start c = start ∧
      (∀ k, j < k → k < c → chain m start k ≠ start) ∧
      (∀ k, j ≤ k → k < c → getI m.hePrev (chain m start (k + 1)) = chain m start k) := by
  intro fuel
  induction fuel with
  | zero =>
      intro j c hfuel hj hok
      simp [loopIter] at hok
  | succ fuel ih =>
      intro j c hfuel hj hok
      by_cases hprev : getI m.hePrev (getI m.heNext (chain m start j)) = chain m start j
      · by_cases hcount : j + 1 > m.nbHalfEdges
        · simp [loopIter, hprev, hcount] at hok
        · by_cases hret : getI m.heNext (chain m start j) = start
          · have hprev' := hprev
            rw [hret] at hprev'
            have hc : j + 1 = c := by
              simpa [loopIter, hprev', hcount, hret] using hok
            refine ⟨by omega, by omega, ?_, ?_, ?_⟩
            · rw [← hc]
              exact hret
            · intro k hk1 hk2
              omega
            · intro k hk1 hk2
              have hkj : k = j := by omega
              rw [hkj]
              exact hprev
          · have hok' : loopIter m f start (chain m start (j + 1)) (j + 1) fuel =
                .ok c := by
              have hch : chain m start (j + 1) = getI m.heNext (chain m start j) := rfl
              rw [hch]
              simpa [loopIter, hprev, hcount, hret] using hok
            obtain ⟨h1, h2, h3, h4, h5⟩ := ih (j + 1) c (by omega) (by omega) hok'
            refine ⟨by omega, h2, h3, ?_, ?_⟩
            · intro k hk1 hk2
              by_cases hkj : k = j + 1
              · rw [hkj]
                exact hret
              · exact h4 k (by omega) hk2
            · intro k hk1 hk2
              by_cases hkj : k = j
              · rw [hkj]
                exact hprev
              · exact h5 k (by omega) hk2
      · simp [loopIter, hprev] at hok

theorem loopIter_complete (m : HalfEdgeMesh) (f : Nat) (start : Int) (n : Nat)
    (hret : chain m start n = start)
    (hmin : ∀ k, 1 ≤ k → k < n → chain m start k ≠ start)
    (hprevs : ∀ k, k < n → getI m.hePrev (chain m start (k + 1)) = chain m start k)
    (hnN : n ≤ m.nbHalfEdges) :
    ∀ d, 1 ≤ d → ∀ j, j + d = n →
      loopIter m f start (chain m start j) j (m.nbHalfEdges + 1 - j) = .ok n := by
  intro d
  induction d with
  | zero => omega
  | succ d ih =>
      intro _ j hj
      have hjn : j < n := by omega
      have hfuel : m.nbHalfEdges + 1 - j = (m.nbHalfEdges - j) + 1 := by omega
      have hp : getI m.hePrev (getI m.heNext (chain m start j)) = chain m start j :=
        hprevs j hjn
      rw [hfuel]
      by_cases hd : d = 0
      · have hjn1 : j + 1 = n := by omega
        have hr : getI m.heNext (chain m start j) = start := by
          have hch : getI m.heNext (chain m start j) = chain m start (j + 1) := rfl
          rw [hch, hjn1]
          exact hret
        have hp' := hp
        rw [hr] at hp'
        simp [loopIter, hp', hr, hjn1]
        omega
      · have hr : ¬ (getI m.heNext (chain m start j) = start) := by
          have hch : getI m.heNext (chain m start j) = chain m start (j + 1) := rfl
          rw [hch]
          exact hmin (j + 1) (by omega) (by omega)
        have hrec := ih (by omega) (j + 1) (by omega)
        have hch : chain m start (j + 1) = getI m.heNext (chain m start j) := rfl
        rw [hch] at hrec
        have hfuel2 : m.nbHalfEdges + 1 - (j + 1) = m.nbHalfEdges - j := by omega
        rw [hfuel2] at hrec
        simp [loopIter, hp, hr]
        rw [if_neg (by omega : ¬ (m.nbHalfEdges < j + 1))]
        exact hrec

theorem checkFace_ok_iff (m : HalfEdgeMesh) (f : Nat) :
    checkFace m f = .ok () ↔ ∃ n, FaceLoopOkAt m f n := by
  have hck : checkFace m f =
      (match loopIter m f (getI m.faceEdges (f : Int)) (getI m.faceEdges (f : Int)) 0
          (m.nbHalfEdges + 1) with
       | .error e => .error e
       | .ok count =>
           if (count : Int) ≠ getI m.faceVertCounts (f : Int) then
             .error (.loopLengthMismatch f count (getI m.faceVertCounts (f : Int)))
           else .ok ()) := rfl
  constructor
  · intro hok
    rw [hck] at hok
    cases hres : loopIter m f (getI m.faceEdges (f : Int)) (getI m.faceEdges (f : Int))
        0 (m.nbHalfEdges + 1) with
    | error err => rw [hres] at hok; simp at hok
    | ok c =>
        rw [hres] at hok
        have hcnt : (c : Int) = getI m.faceVertCounts (f : Int) := by
          by_contra hc
          simp [hc] at hok
        have hres0 : loopIter m f (getI m.faceEdges (f : Int))
            (chain m (getI m.faceEdges (f : Int)) 0) 0 (m.nbHalfEdges + 1) = .ok c := hres
        obtain ⟨h1, h2, h3, h4, h5⟩ := loopIter_ok_props m f (getI m.faceEdges (f : Int))
          (m.nbHalfEdges + 1) 0 c (by omega) (by omega) hres0
        exact ⟨c, by omega, h2, h3,
          fun k hk1 hk2 => h4 k (by omega) hk2,
          fun k hk => h5 k (by omega) hk, hcnt⟩
  · intro ⟨n, hn1, hnN, hret, hmin, hprevs, hcnt⟩
    have hli := loopIter_complete m f (getI m.faceEdges (f : Int)) n hret hmin hprevs
      hnN n hn1 0 (by omega)
    rw [Nat.sub_zero] at hli
    rw [show chain m (getI m.faceEdges (f : Int)) 0 = getI m.faceEdges (f : Int)
      from rfl] at hli
    rw [hck, hli]
    simp [hcnt]

theorem checkFacesGo_ok_iff (m : HalfEdgeMesh) :
    ∀ l, checkFacesGo m l = .ok () ↔ ∀ f ∈ l, checkFace m f = .ok () := by
  intro l
  induction l with
  | nil => simp [checkFacesGo]
  | cons f rest ih =>
      constructor
      · intro hok g hg
        cases hcf : checkFace m f with
        | error err => rw [checkFacesGo, hcf] at hok; simp at hok
        | ok u =>
            cases u
            rw [checkFacesGo, hcf] at hok
            rcases List.mem_cons.mp hg with hgf | hgr
            · rw [hgf]; exact hcf
            · exact (ih.mp hok) g hgr
      · intro hall
        have hcf : checkFace m f = .ok () := hall f (List.mem_cons_self f rest)
        rw [checkFacesGo, hcf]
        exact ih.mpr (fun g hg => hall g (List.mem_cons_of_mem f hg))

theorem checkFaces_ok_iff (m : HalfEdgeMesh) :
    checkFaces m = .ok () ↔ ∀ f, f < m.nbFaces → checkFace m f = .ok () := by
  unfold checkFaces
  rw [checkFacesGo_ok_iff]
  constructor
  · intro hall f hf
    exact hall f (List.mem_range.mpr hf)
  · intro hall f hf
    exact hall f (List.mem_range.mp hf)

theorem twinErrorsGo_cons (m : HalfEdgeMesh) (heId : Nat) (rest : List Nat)
    (acc : Nat) :
    twinErrorsGo m (heId :: rest) acc =
      twinErrorsGo m rest (acc + twinViolAt m heId) := by
  by_cases h1 : getI m.heTwin (heId : Int) = -1
  · simp [twinErrorsGo, twinViolAt, h1]
  · simp only [twinErrorsGo, twinViolAt, h1, if_neg]
    by_cases h2 : getI m.heTwin (getI m.heTwin (heId : Int)) ≠ (heId : Int) <;>
      by_cases h3 : getI m.heVertex (heId : Int) ≠
          getI m.heVertex (getI m.heNext (getI m.heTwin (heId : Int))) ∨
        getI m.heVertex (getI m.heNext (heId : Int)) ≠
          getI m.heVertex (getI m.heTwin (heId : Int)) <;>
      simp [h1, h2, h3]

theorem twinErrorsGo_spec (m : HalfEdgeMesh) :
    ∀ l acc, twinErrorsGo m l acc = acc + (l.map (twinViolAt m)).sum := by
  intro l
  induction l with
  | nil => intro acc; simp [twinErrorsGo]
  | cons heId rest ih =>
      intro acc
      rw [twinErrorsGo_cons, ih, List.map_cons, List.sum_cons]
      omega

theorem loopIter_congr (m1 m2 : HalfEdgeMesh) (h3 : m1.nbHalfEdges = m2.nbHalfEdges)
    (h7 : m1.heNext = m2.heNext) (h8 : m1.hePrev = m2.hePrev) (f : Nat) (start : Int) :
    ∀ (fuel : Nat) (edge : Int) (count : Nat),
      loopIter m1 f start edge count fuel = loopIter m2 f start edge count fuel := by
  intro fuel
  induction fuel with
  | zero => intro edge count; rfl
  | succ fuel ih =>
      intro edge count
      simp only [loopIter, h3, h7, h8, ih]

theorem checkFace_congr (m1 m2 : HalfEdgeMesh) (h3 : m1.nbHalfEdges = m2.nbHalfEdges)
    (h4 : m1.faceEdges = m2.faceEdges) (h5 : m1.faceVertCounts = m2.faceVertCounts)
    (h7 : m1.heNext = m2.heNext) (h8 : m1.hePrev = m2.hePrev) (f : Nat) :
    checkFace m1 f = checkFace m2 f := by
  simp only [checkFace, h3, h4, h5, loopIter_congr m1 m2 h3 h7 h8]

theorem checkFacesGo_congr (m1 m2 : HalfEdgeMesh) (h3 : m1.nbHalfEdges = m2.nbHalfEdges)
    (h4 : m1.faceEdges = m2.faceEdges) (h5 : m1.faceVertCounts = m2.faceVertCounts)
    (h7 : m1.heNext = m2.heNext) (h8 : m1.hePrev = m2.hePrev) :
    ∀ l, checkFacesGo m1 l = checkFacesGo m2 l := by
  intro l
  induction l with
  | nil => rfl
  | cons f rest ih =>
      simp only [checkFacesGo, checkFace_congr m1 m2 h3 h4 h5 h7 h8 f, ih]

theorem checkFaces_congr (m1 m2 : HalfEdgeMesh) (h2 : m1.nbFaces = m2.nbFaces)
    (h3 : m1.nbHalfEdges = m2.nbHalfEdges) (h4 : m1.faceEdges = m2.faceEdges)
    (h5 : m1.faceVertCounts = m2.faceVertCounts) (h7 : m1.heNext = m2.heNext)
    (h8 : m1.hePrev = m2.hePrev) :
    checkFaces m1 = checkFaces m2 := by
  simp only [checkFaces, h2, checkFacesGo_congr m1 m2 h3 h4 h5 h7 h8]

theorem twinViolAt_congr (m1 m2 : HalfEdgeMesh) (h6 : m1.heVertex = m2.heVertex)
    (h7 : m1.heNext = m2.heNext) (h9 : m1.heTwin = m2.heTwin) (heId : Nat) :
    twinViolAt m1 heId = twinViolAt m2 heId := by
  simp only [twinViolAt, h6, h7, h9]

theorem twinErrors_congr (m1 m2 : HalfEdgeMesh) (h3 : m1.nbHalfEdges = m2.nbHalfEdges)
    (h6 : m1.heVertex = m2.heVertex) (h7 : m1.heNext = m2.heNext)
    (h9 : m1.heTwin = m2.heTwin) :
    twinErrors m1 = twinErrors m2 := by
  unfold twinErrors
  rw [twinErrorsGo_spec, twinErrorsGo_spec, h3,
    funext (twinViolAt_congr m1 m2 h6 h7 h9)]

theorem checkTwins_congr (m1 m2 : HalfEdgeMesh) (h3 : m1.nbHalfEdges = m2.nbHalfEdges)
    (h6 : m1.heVertex = m2.heVertex) (h7 : m1.heNext = m2.heNext)
    (h9 : m1.heTwin = m2.heTwin) :
    checkTwins m1 = checkTwins m2 := by
  simp only [checkTwins, twinErrors_congr m1 m2 h3 h6 h7 h9]

theorem checkVertsGo_congr (m1 m2 : HalfEdgeMesh) (h6 : m1.heVertex = m2.heVertex)
    (h10 : m1.vertexEdges = m2.vertexEdges) :
    ∀ l, checkVertsGo m1 l = checkVertsGo m2 l := by
  intro l
  induction l with
  | nil => rfl
  | cons v rest ih =>
      simp only [checkVertsGo, h6, h10, ih]

theorem checkVerts_congr (m1 m2 : HalfEdgeMesh) (h1 : m1.nbVertices = m2.nbVertices)
    (h6 : m1.heVertex = m2.heVertex) (h10 : m1.vertexEdges = m2.vertexEdges) :
    checkVerts m1 = checkVerts m2 := by
  simp only [checkVerts, h1, checkVertsGo_congr m1 m2 h6 h10]

theorem validateTopology_congr (m1 m2 : HalfEdgeMesh)
    (h1 : m1.nbVertices = m2.nbVertices) (h2 : m1.nbFaces = m2.nbFaces)
    (h3 : m1.nbHalfEdges = m2.nbHalfEdges) (h4 : m1.faceEdges = m2.faceEdges)
    (h5 : m1.faceVertCounts = m2.faceVertCounts) (h6 : m1.heVertex = m2.heVertex)
    (h7 : m1.heNext = m2.heNext) (h8 : m1.hePrev = m2.hePrev)
    (h9 : m1.heTwin = m2.heTwin) (h10 : m1.vertexEdges = m2.vertexEdges) :
    validateTopology m1 = validateTopology m2 := by
  simp only [validateTopology, checkFaces_congr m1 m2 h2 h3 h4 h5 h7 h8,
    checkTwins_congr m1 m2 h3 h6 h7 h9, checkVerts_congr m1 m2 h1 h6 h10]

/-- C1: for every Polygon Mesh Source, build either returns a mesh on which
validateTopology succeeds (the mesh constructed from the source, validated
unconditionally before return), or propagates the validation error and
returns no mesh at all; no unvalidated or incomplete mesh reaches the
caller. -/
theorem build_contract_atomic (src : NGonMesh) :
    (∀ m, build src = Except.ok m →
      m = constructMesh src ∧ validateTopology m = Except.ok ()) ∧
    (∀ err, validateTopology (constructMesh src) = Except.error err →
      build src = Except.error err) := by
  have hb : build src =
      (match validateTopology (constructMesh src) with
       | .error e => Except.error e
       | .ok () => Except.ok (constructMesh src)) := rfl
  constructor
  · intro m hm
    rw [hb] at hm
    cases hval : validateTopology (constructMesh src) with
    | error e =>
        rw [hval] at hm
        exact absurd hm (by simp)
    | ok u =>
        cases u
        rw [hval] at hm
        have hm2 : (Except.ok (constructMesh src) : Except ValError HalfEdgeMesh) =
            Except.ok m := hm
        have hcm : constructMesh src = m := by injection hm2
        exact ⟨hcm.symm, hcm ▸ hval⟩
  · intro err herr
    rw [hb, herr]

/-- C1 witness: on the empty source, build returns a mesh and that mesh
passes validation. -/
theorem build_contract_atomic_witness :
    validateTopology (constructMesh emptySrc) = Except.ok () :=
  ((build_contract_atomic emptySrc).1 (constructMesh emptySrc) rfl).2

/-- C2: for each face f of a well-formed source, build creates one half-edge
per consecutive vertex pair: the k-th half-edge of the face (at index
heStartN + k) has origin the face's k-th vertex, incident face f, next the
cyclic successor within the face's half-edges, prev its inverse; and each
vertex's recorded outgoing edge is the first half-edge (in creation order)
that has it as origin. -/
theorem build_face_half_edge_layout (src : NGonMesh) (h : SourceWF src) :
    (∀ f, f < src.nbFaces → ∀ i, i < (faceAt src f).count →
      getI (constructMesh src).heVertex ((heStartN src.faces f + i : Nat) : Int) =
        vtx (faceAt src f) i ∧
      getI (constructMesh src).heFace ((heStartN src.faces f + i : Nat) : Int) =
        (f : Int) ∧
      getI (constructMesh src).heNext ((heStartN src.faces f + i : Nat) : Int) =
        ((heStartN src.faces f + (i + 1) % (faceAt src f).count : Nat) : Int) ∧
      getI (constructMesh src).hePrev ((heStartN src.faces f + i : Nat) : Int) =
        ((heStartN src.faces f +
          (i + (faceAt src f).count - 1) % (faceAt src f).count : Nat) : Int)) ∧
    (∀ v, v < src.nbVertices →
      getI (constructMesh src).vertexEdges (v : Int) =
        firstOriginIdx (constructMesh src).heVertex (v : Int)) :=
  ⟨fun f hf i hi => ⟨cm_heVertex_at src h f i hf hi, cm_heFace_at src h f i hf hi,
    cm_heNext_at src h f i hf hi, cm_hePrev_at src h f i hf hi⟩,
   fun v hv => cm_vertexEdges_at src h v hv⟩

/-- C2 witness: on the quad face [0, 1, 2, 3], the half-edge origins are
[0, 1, 2, 3] in creation order and next forms the cycle 0, 1, 2, 3, 0. -/
theorem build_face_half_edge_layout_witness :
    SourceWF quadSrc ∧
    getI (constructMesh quadSrc).heNext ((heStartN quadSrc.faces 0 + 1 : Nat) : Int) =
      ((heStartN quadSrc.faces 0 + (1 + 1) % (faceAt quadSrc 0).count : Nat) : Int) ∧
    (constructMesh quadSrc).heVertex = [0, 1, 2, 3] ∧
    (constructMesh quadSrc).heNext = [1, 2, 3, 0] ∧
    (constructMesh quadSrc).hePrev = [3, 0, 1, 2] := by
  refine ⟨by decide, ?_, by decide, by decide, by decide⟩
  exact ((build_face_half_edge_layout quadSrc (by decide)).1 0 (by decide)
    1 (by decide)).2.2.1

/-- C3: twin resolution sets each half-edge's twin to the half-edge the
edge map registered under the reverse directed edge (destination taken as
the origin of next), or leaves the -1 sentinel and counts the half-edge as
a boundary edge when the reverse key is absent. -/
theorem build_twin_resolution (src : NGonMesh) :
    (∀ e : Nat, e < sumCounts src.faces →
      getI (constructMesh src).heTwin (e : Int) =
        (match emFind (builtState src).edgeMap
           (dest (constructMesh src) (e : Int),
            origin (constructMesh src) (e : Int)) with
         | some t => t
         | none => -1)) ∧
    boundaryEdges src = ((List.range (sumCounts src.faces)).filter
      (fun (e : Nat) => (emFind (builtState src).edgeMap
        (dest (constructMesh src) (e : Int),
         origin (constructMesh src) (e : Int))).isNone)).length := by
  refine ⟨fun e he => cm_heTwin_at src e he, ?_⟩
  rw [boundaryEdges_spec, List.countP_eq_length_filter]

/-- C3 witness: the isolated triangle yields 3 half-edges, all with twin
-1, and a boundary-edge count of 3. -/
theorem build_twin_resolution_witness :
    (constructMesh triSrc).nbHalfEdges = 3 ∧
    (constructMesh triSrc).heTwin = [-1, -1, -1] ∧
    boundaryEdges triSrc = 3 ∧
    getI (constructMesh triSrc).heTwin ((0 : Nat) : Int) = -1 := by
  refine ⟨by decide, by decide, by decide, ?_⟩
  rw [(build_twin_resolution triSrc).1 0 (by decide)]
  decide

/-- C4 counterexample: on the source with the single face [0, 1, 0, 1]
(degenerate, but a Polygon Mesh Source), after twin resolution half-edge 0
has a twin, yet its twin's twin is a different half-edge: the overwrite of
duplicate directed-edge registrations breaks the claimed symmetry. -/
theorem twin_symmetry_counterexample :
    getI (constructMesh dupEdgeSrc).heTwin 0 ≠ -1 ∧
    getI (constructMesh dupEdgeSrc).heTwin
      (getI (constructMesh dupEdgeSrc).heTwin 0) ≠ 0 := by
  decide

/-- C4 amended: when no directed edge is registered twice (the directed
edges of all faces are pairwise distinct), the twin assignment after twin
resolution is symmetric: twin(twin(e)) = e, and the origin/destination of
e are the destination/origin of its twin. -/
theorem twin_symmetry_nodup (src : NGonMesh) (h : SourceWF src)
    (hnd : (dirEdges src.faces).Nodup) (e : Nat) (he : e < sumCounts src.faces)
    (ht : getI (constructMesh src).heTwin (e : Int) ≠ -1) :
    getI (constructMesh src).heTwin
      (getI (constructMesh src).heTwin (e : Int)) = (e : Int) ∧
    origin (constructMesh src) (e : Int) =
      dest (constructMesh src) (getI (constructMesh src).heTwin (e : Int)) ∧
    dest (constructMesh src) (e : Int) =
      origin (constructMesh src) (getI (constructMesh src).heTwin (e : Int)) := by
  obtain ⟨t, htl, h1, h2, h3, h4⟩ := twin_symm_helper src h hnd e he ht
  rw [h1]
  exact ⟨h2, h4.symm, h3.symm⟩

/-- C4 amended witness: two triangles sharing edge (1, 2) have pairwise
distinct directed edges; half-edge 1 has a twin, and twin(twin(1)) = 1. -/
theorem twin_symmetry_nodup_witness :
    SourceWF twoTriSrc ∧ (dirEdges twoTriSrc.faces).Nodup ∧
    getI (constructMesh twoTriSrc).heTwin 1 ≠ -1 ∧
    getI (constructMesh twoTriSrc).heTwin
      (getI (constructMesh twoTriSrc).heTwin 1) = 1 := by
  refine ⟨by decide, by decide, by decide, ?_⟩
  exact (twin_symmetry_nodup twoTriSrc (by decide) (by decide) 1 (by decide)
    (by decide)).1

/-- C5: the loop closure pass accepts exactly those meshes in which, for
every face, the next-orbit of its representative half-edge passes the
prev(next(e)) = e check at each step, first returns to the start within
the nbHalfEdges bound, and closes after exactly the face's declared vertex
count of steps. -/
theorem loop_closure_pass_iff (m : HalfEdgeMesh) :
    checkFaces m = Except.ok () ↔ ∀ f, f < m.nbFaces → ∃ n, FaceLoopOkAt m f n := by
  rw [checkFaces_ok_iff]
  constructor
  · intro hall f hf
    exact (checkFace_ok_iff m f).mp (hall f hf)
  · intro hall f hf
    exact (checkFace_ok_iff m f).mpr (hall f hf)

/-- C5 witness: the loop closure pass accepts the built triangle, and face
0 of it satisfies the loop specification. -/
theorem loop_closure_pass_iff_witness :
    checkFaces (constructMesh triSrc) = Except.ok () ∧
    ∃ n, FaceLoopOkAt (constructMesh triSrc) 0 n :=
  ⟨rfl, (loop_closure_pass_iff (constructMesh triSrc)).mp rfl 0 (by decide)⟩

/-- C6: the twin symmetry pass accumulates, over every half-edge with a
twin, one violation for a broken twin-of-twin pointer plus one for a
non-reversed (origin, destination) pair, and fails with exactly that total
if it is nonzero, succeeding only when it is zero. -/
theorem twin_pass_counts (m : HalfEdgeMesh) :
    twinErrors m = ((List.range m.nbHalfEdges).map (twinViolAt m)).sum ∧
    checkTwins m = (if twinErrors m = 0 then Except.ok ()
      else Except.error (ValError.twinAsymmetry (twinErrors m))) := by
  constructor
  · have hspec := twinErrorsGo_spec m (List.range m.nbHalfEdges) 0
    simpa [twinErrors] using hspec
  · by_cases h0 : twinErrors m = 0
    · simp [checkTwins, h0]
    · simp [checkTwins, h0, Nat.pos_of_ne_zero h0]

/-- C7: the empty source builds, without error, the empty mesh: zero
counts, every table empty, and all three validation passes succeed. -/
theorem empty_source_build :
    build emptySrc = Except.ok (constructMesh emptySrc) ∧
    (constructMesh emptySrc).nbVertices = 0 ∧
    (constructMesh emptySrc).nbFaces = 0 ∧
    (constructMesh emptySrc).nbHalfEdges = 0 ∧
    (constructMesh emptySrc).vertexPositions = [] ∧
    (constructMesh emptySrc).vertexColors = [] ∧
    (constructMesh emptySrc).vertexNormals = [] ∧
    (constructMesh emptySrc).vertexTexCoords = [] ∧
    (constructMesh emptySrc).vertexEdges = [] ∧
    (constructMesh emptySrc).faceEdges = [] ∧
    (constructMesh emptySrc).faceVertCounts = [] ∧
    (constructMesh emptySrc).faceOffsets = [] ∧
    (constructMesh emptySrc).faceNormals = [] ∧
    (constructMesh emptySrc).faceCenters = [] ∧
    (constructMesh emptySrc).faceAreas = [] ∧
    (constructMesh emptySrc).heVertex = [] ∧
    (constructMesh emptySrc).heFace = [] ∧
    (constructMesh emptySrc).heNext = [] ∧
    (constructMesh emptySrc).hePrev = [] ∧
    (constructMesh emptySrc).heTwin = [] ∧
    (constructMesh emptySrc).vertexFaceIndices = [] ∧
    checkFaces (constructMesh emptySrc) = Except.ok () ∧
    checkTwins (constructMesh emptySrc) = Except.ok () ∧
    checkVerts (constructMesh emptySrc) = Except.ok () ∧
    validateTopology (constructMesh emptySrc) = Except.ok () :=
  ⟨rfl, rfl, rfl, rfl, rfl, rfl, rfl, rfl, rfl, rfl, rfl, rfl, rfl, rfl, rfl,
   rfl, rfl, rfl, rfl, rfl, rfl, rfl, rfl, rfl, rfl⟩

/-- C8: a face listing vertex 0 at two consecutive positions registers the
directed edge (0, 0); build succeeds, the resulting half-edge 0 is its own
twin, and all three validation passes accept the mesh. -/
theorem degenerate_self_twin :
    (faceAt selfTwinSrc 0).vertexIndices.getD 0 99 =
      (faceAt selfTwinSrc 0).vertexIndices.getD 1 99 ∧
    build selfTwinSrc = Except.ok (constructMesh selfTwinSrc) ∧
    getI (constructMesh selfTwinSrc).heTwin 0 = 0 ∧
    validateTopology (constructMesh selfTwinSrc) = Except.ok () :=
  ⟨rfl, rfl, rfl, rfl⟩

/-- C9: the half-edges of face f occupy exactly the contiguous range
starting at the sum of the vertex counts of faces 0..f-1 (heStartN), of
length the face's vertex count: faceEdges f is the first index of that
range, heFace is f exactly on the range, and next and prev of every
half-edge in the range stay within the range. -/
theorem face_range_layout (src : NGonMesh) (h : SourceWF src) (f : Nat)
    (hf : f < src.nbFaces) :
    getI (constructMesh src).faceEdges (f : Int) =
      ((heStartN src.faces f : Nat) : Int) ∧
    (∀ i, i < (faceAt src f).count →
      getI (constructMesh src).heFace ((heStartN src.faces f + i : Nat) : Int) =
        (f : Int)) ∧
    (∀ e : Nat, e < sumCounts src.faces →
      getI (constructMesh src).heFace (e : Int) = (f : Int) →
      heStartN src.faces f ≤ e ∧ e < heStartN src.faces f + (faceAt src f).count) ∧
    (∀ i, i < (faceAt src f).count →
      ∃ j, j < (faceAt src f).count ∧
        getI (constructMesh src).heNext ((heStartN src.faces f + i : Nat) : Int) =
          ((heStartN src.faces f + j : Nat) : Int)) ∧
    (∀ i, i < (faceAt src f).count →
      ∃ j, j < (faceAt src f).count ∧
        getI (constructMesh src).hePrev ((heStartN src.faces f + i : Nat) : Int) =
          ((heStartN src.faces f + j : Nat) : Int)) := by
  refine ⟨cm_faceEdges_at src h f hf,
    fun i hi => cm_heFace_at src h f i hf hi, ?_, ?_, ?_⟩
  · intro e he hface
    obtain ⟨g, j, hg, hj, hei⟩ := he_decompose src.faces e he
    have hg' : g < src.nbFaces := h.1 ▸ hg
    have hgf : g = f := by
      have h2 := cm_heFace_at src h g j hg' hj
      rw [← hei] at h2
      rw [h2] at hface
      exact_mod_cast hface
    subst hgf
    simp only [faceAt]
    omega
  · intro i hi
    exact ⟨(i + 1) % (faceAt src f).count, Nat.mod_lt _ (by omega),
      cm_heNext_at src h f i hf hi⟩
  · intro i hi
    exact ⟨(i + (faceAt src f).count - 1) % (faceAt src f).count,
      Nat.mod_lt _ (by omega), cm_hePrev_at src h f i hf hi⟩

/-- C9 witness: on the quad, face 0's representative half-edge is 0 and
half-edge 0 belongs to face 0. -/
theorem face_range_layout_witness :
    SourceWF quadSrc ∧ 0 < quadSrc.nbFaces ∧
    getI (constructMesh quadSrc).faceEdges 0 =
      ((heStartN quadSrc.faces 0 : Nat) : Int) := by
  refine ⟨by decide, by decide, ?_⟩
  exact (face_range_layout quadSrc (by decide) 0 (by decide)).1

/-- C10: validateTopology reads only nbVertices, nbFaces, nbHalfEdges,
faceEdges, faceVertCounts, heVertex, heNext, hePrev, heTwin and
vertexEdges: two meshes agreeing on those fields validate identically,
however the remaining fields (heFace included) differ. -/
theorem validate_reads_topology_only (m1 m2 : HalfEdgeMesh)
    (h1 : m1.nbVertices = m2.nbVertices) (h2 : m1.nbFaces = m2.nbFaces)
    (h3 : m1.nbHalfEdges = m2.nbHalfEdges) (h4 : m1.faceEdges = m2.faceEdges)
    (h5 : m1.faceVertCounts = m2.faceVertCounts) (h6 : m1.heVertex = m2.heVertex)
    (h7 : m1.heNext = m2.heNext) (h8 : m1.hePrev = m2.hePrev)
    (h9 : m1.heTwin = m2.heTwin) (h10 : m1.vertexEdges = m2.vertexEdges) :
    validateTopology m1 = validateTopology m2 :=
  validateTopology_congr m1 m2 h1 h2 h3 h4 h5 h6 h7 h8 h9 h10

/-- C10 witness: corrupting heFace (and faceOffsets, positions, index
buffer) of the built triangle is not detected: validation still accepts. -/
theorem validate_reads_topology_only_witness :
    validateTopology corruptTriMesh = validateTopology (constructMesh triSrc) ∧
    validateTopology (constructMesh triSrc) = Except.ok () :=
  ⟨validate_reads_topology_only _ _ rfl rfl rfl rfl rfl rfl rfl rfl rfl rfl, rfl⟩
